import Mathlib

/-!
Verification of the event-extraction core of the `events-crawl` repository
(`src/scraper.py`, class `EventScraper`).

The Python source is shallowly embedded: text is `List Char`, the regular
expressions used by `_parse_date_from_text` and `_clean_description` are
embedded as executable matchers over character lists with the same
leftmost/greedy backtracking semantics (restricted to the ASCII/Latin
character classes the scraper actually works with), `datetime` construction
becomes an `Option`-valued calendar-date builder with Python's validity rules
(proleptic Gregorian calendar, years 1..9999), and BeautifulSoup documents
become a tree datatype with executable embeddings of the specific CSS
selectors the scraper uses.
-/

namespace EventsCrawl

/-- Text is modelled as a list of characters (Python `str`). -/
abbrev Str := List Char

/-! ## Character classes

These embed the character classes used by the scraper's regular expressions
and by `str.strip` / `str.lower`.  Python's `\s`, `\d`, `\w` and `str.lower`
are Unicode-aware; the embedding restricts them to the ASCII range plus the
accented Latin letters that occur in the scraper's Spanish-language data,
which covers every character class decision the scraper makes on its inputs.
-/

/-- Whitespace, as recognised by Python's `\s` and `str.strip` (ASCII range). -/
def pyIsSpace (c : Char) : Bool :=
  c = ' ' || c = '\t' || c = '\n' || c = '\x0d' || c = '\x0b' || c = '\x0c'

/-- Decimal digit, Python's `\d` (ASCII range). -/
def pyIsDigit (c : Char) : Bool :=
  '0' ≤ c && c ≤ '9'

/-- Lower-casing of a single character, Python's `str.lower` restricted to
ASCII plus the accented Spanish letters used by the scraper's data. -/
def charLower (c : Char) : Char :=
  if 'A' ≤ c && c ≤ 'Z' then Char.ofNat (c.toNat + 32)
  else if c = 'Á' then 'á'
  else if c = 'É' then 'é'
  else if c = 'Í' then 'í'
  else if c = 'Ó' then 'ó'
  else if c = 'Ú' then 'ú'
  else if c = 'Ñ' then 'ñ'
  else if c = 'Ü' then 'ü'
  else c

/-- Python `str.lower` on a whole string. -/
def lowerStr (s : Str) : Str := s.map charLower

/-- Word character, Python's `\w` (ASCII letters, digits, underscore, plus
the accented Spanish letters used by the scraper's data). -/
def isWordChar (c : Char) : Bool :=
  ('a' ≤ c && c ≤ 'z') || ('A' ≤ c && c ≤ 'Z') || pyIsDigit c || c = '_' ||
  c = 'á' || c = 'é' || c = 'í' || c = 'ó' || c = 'ú' || c = 'ñ' || c = 'ü' ||
  c = 'Á' || c = 'É' || c = 'Í' || c = 'Ó' || c = 'Ú' || c = 'Ñ' || c = 'Ü'

/-! ## Regular-expression matcher

The eight patterns of `_parse_date_from_text` only use literals, `\d{m,n}`,
`\s*`, `\s+`, `\w+` and `,?`.  `Tok` is the token alphabet of such a pattern;
`digTry`, `wordTry` and `wspTry` are internal states of the backtracking
matcher (a quantifier together with the length it is currently trying, tried
greedily from the longest feasible length downwards, exactly like CPython's
backtracking engine).  Every `dig`/`word` token is a capture group, matching
the source patterns, where every group is a `(\d{m,n})` or `(\w+)`. -/
inductive Tok where
  | lit (cs : Str)
  | dig (lo hi : Nat)
  | word
  | wsp (mn : Nat)
  | optComma
  | digTry (lo k : Nat)
  | wordTry (k : Nat)
  | wspTry (mn k : Nat)
deriving DecidableEq, Repr

/-- One step-bounded backtracking matcher: match the token list at the start
of `s`, returning the list of captured groups.  `f` is a step budget; the
wrappers below always supply a budget larger than the size of the whole
backtracking search tree for the patterns in use. -/
def mt : Nat → List Tok → Str → Option (List Str)
  | 0, _, _ => none
  | _ + 1, [], _ => some []
  | f + 1, .lit p :: ts, s =>
      if p.isPrefixOf s then mt f ts (s.drop p.length) else none
  | f + 1, .dig lo hi :: ts, s =>
      let run := (s.takeWhile pyIsDigit).length
      let top := Nat.min hi run
      if top < lo then none else mt f (.digTry lo top :: ts) s
  | f + 1, .digTry lo k :: ts, s =>
      (match mt f ts (s.drop k) with
       | some caps => some (s.take k :: caps)
       | none => if k ≤ lo then none else mt f (.digTry lo (k - 1) :: ts) s)
  | f + 1, .word :: ts, s =>
      let run := (s.takeWhile isWordChar).length
      if run = 0 then none else mt f (.wordTry run :: ts) s
  | f + 1, .wordTry k :: ts, s =>
      (match mt f ts (s.drop k) with
       | some caps => some (s.take k :: caps)
       | none => if k ≤ 1 then none else mt f (.wordTry (k - 1) :: ts) s)
  | f + 1, .wsp mn :: ts, s =>
      let run := (s.takeWhile pyIsSpace).length
      if run < mn then none else mt f (.wspTry mn run :: ts) s
  | f + 1, .wspTry mn k :: ts, s =>
      (match mt f ts (s.drop k) with
       | some caps => some caps
       | none => if k ≤ mn then none else mt f (.wspTry mn (k - 1) :: ts) s)
  | f + 1, .optComma :: ts, s =>
      (match s with
       | ',' :: s2 =>
          (match mt f ts s2 with
           | some caps => some caps
           | none => mt f ts s)
       | _ => mt f ts s)

/-- Step budget: a generous upper bound on the size of the backtracking
search tree of any of the scraper's patterns on `s`. -/
def fuelFor (s : Str) : Nat := 8 * (s.length + 16) * (s.length + 16)

/-- Match a pattern at the start of `s` (Python `re.match`). -/
def matchAt (toks : List Tok) (s : Str) : Option (List Str) :=
  mt (fuelFor s) toks s

/-- Find the leftmost match of a pattern in `s` (Python `re.search`):
try each start position from the left, full backtracking at each. -/
def searchToks (toks : List Tok) : Str → Option (List Str)
  | [] => matchAt toks []
  | c :: rest =>
      (match matchAt toks (c :: rest) with
       | some caps => some caps
       | none => searchToks toks rest)

/-! ## Month lexicon, calendar dates, date formatting -/

/-- Spanish month lexicon of `EventScraper._parse_month`: lower-case and
strip the input, then look it up in the fixed name/abbreviation table. -/
def parseMonthTable (t : Str) : Option Nat :=
  if t = "enero".toList then some 1 else if t = "ene".toList then some 1
  else if t = "febrero".toList then some 2 else if t = "feb".toList then some 2
  else if t = "marzo".toList then some 3 else if t = "mar".toList then some 3
  else if t = "abril".toList then some 4 else if t = "abr".toList then some 4
  else if t = "mayo".toList then some 5 else if t = "may".toList then some 5
  else if t = "junio".toList then some 6 else if t = "jun".toList then some 6
  else if t = "julio".toList then some 7 else if t = "jul".toList then some 7
  else if t = "agosto".toList then some 8 else if t = "ago".toList then some 8
  else if t = "septiembre".toList then some 9 else if t = "sep".toList then some 9
  else if t = "octubre".toList then some 10 else if t = "oct".toList then some 10
  else if t = "noviembre".toList then some 11 else if t = "nov".toList then some 11
  else if t = "diciembre".toList then some 12 else if t = "dic".toList then some 12
  else none

/-- Strip both ends (Python `str.strip`) is defined later; `_parse_month`
only ever receives `\w+` matches, which contain no whitespace, so the
lexicon is applied to the lower-cased text directly here and the full
strip-then-lookup composition is defined once `pstrip` exists. -/
def parseMonthNoStrip (m : Str) : Option Nat := parseMonthTable (lowerStr m)

/-- A calendar date, the value carried by Python's `datetime` here. -/
structure Date where
  year : Nat
  month : Nat
  day : Nat
deriving DecidableEq, Repr

/-- Gregorian leap year, as used by `datetime`. -/
def isLeap (y : Nat) : Bool :=
  y % 4 = 0 && (y % 100 ≠ 0 || y % 400 = 0)

/-- Days in a month of the proleptic Gregorian calendar. -/
def daysInMonth (y m : Nat) : Nat :=
  if m = 1 then 31 else if m = 2 then (if isLeap y then 29 else 28)
  else if m = 3 then 31 else if m = 4 then 30 else if m = 5 then 31
  else if m = 6 then 30 else if m = 7 then 31 else if m = 8 then 31
  else if m = 9 then 30 else if m = 10 then 31 else if m = 11 then 30
  else if m = 12 then 31 else 0

/-- Python `datetime(year, month, day)`: succeeds exactly on valid proleptic
Gregorian dates with `1 <= year <= 9999`, otherwise raises `ValueError`,
modelled as `none`. -/
def mkDate (y m d : Nat) : Option Date :=
  if 1 ≤ y ∧ y ≤ 9999 ∧ 1 ≤ m ∧ m ≤ 12 ∧ 1 ≤ d ∧ d ≤ daysInMonth y m then
    some ⟨y, m, d⟩
  else none

/-- Python `int` on a string of decimal digits. -/
def strToNat (s : Str) : Nat :=
  s.foldl (fun a c => 10 * a + (c.toNat - 48)) 0

/-- Decimal rendering of a natural number. -/
def natToStr (n : Nat) : Str := (toString n).toList

/-- Zero-pad to two digits, `strftime` `%d` / `%m`. -/
def pad2 (n : Nat) : Str := if n < 10 then '0' :: natToStr n else natToStr n

/-- The canonical rendering `event_date.strftime('%d/%m/%Y')`. -/
def formatDate (d : Date) : Str :=
  pad2 d.day ++ '/' :: (pad2 d.month ++ '/' :: natToStr d.year)

/-- The pair of fields `_parse_date_from_text` puts into its result
dictionary: both keys are always written together in the source. -/
structure DateInfo where
  event_date : Date
  formatted_date : Str
deriving DecidableEq, Repr

/-! ## The eight date patterns

Each pattern of `_parse_date_from_text` carries the group interpretation the
source selects for it by inspecting the pattern string
(`'de' in pattern`, `pattern.startswith(...)`, `'\s+(\w+)\s+' in pattern`):
the tests resolve statically, pattern by pattern, to the four strategies
below. -/
inductive GroupSem where
  | dmyName
  | ymdNum
  | mdyName
  | dmyNum
deriving DecidableEq, Repr

structure DatePattern where
  toks : List Tok
  sem : GroupSem
deriving DecidableEq, Repr

/-- Pattern `(\d{1,2})\s+de\s+(\w+)\s+de\s+(\d{4})` — hits the
`'de' in pattern` branch (day, month name, year). -/
def pat0 : DatePattern :=
  ⟨[.dig 1 2, .wsp 1, .lit ('d' :: 'e' :: []), .wsp 1, .word, .wsp 1,
    .lit ('d' :: 'e' :: []), .wsp 1, .dig 4 4], .dmyName⟩

/-- Pattern `(\d{1,2})/(\d{1,2})/(\d{4})` — `else` branch (day, month, year). -/
def pat1 : DatePattern :=
  ⟨[.dig 1 2, .lit ['/'], .dig 1 2, .lit ['/'], .dig 4 4], .dmyNum⟩

/-- Pattern `(\d{1,2})-(\d{1,2})-(\d{4})` — `else` branch (day, month, year). -/
def pat2 : DatePattern :=
  ⟨[.dig 1 2, .lit ['-'], .dig 1 2, .lit ['-'], .dig 4 4], .dmyNum⟩

/-- Pattern `(\d{4})\s*(\d{1,2})\s*(\d{1,2})` — `startswith (\d{4})` branch
(year, month, day). -/
def pat3 : DatePattern :=
  ⟨[.dig 4 4, .wsp 0, .dig 1 2, .wsp 0, .dig 1 2], .ymdNum⟩

/-- Pattern `(\d{4})-(\d{1,2})-(\d{1,2})` — `startswith (\d{4})` branch
(year, month, day). -/
def pat4 : DatePattern :=
  ⟨[.dig 4 4, .lit ['-'], .dig 1 2, .lit ['-'], .dig 1 2], .ymdNum⟩

/-- Pattern `(\d{1,2})\s+(\w+)\s+(\d{4})` — `'\s+(\w+)\s+' in pattern` branch
(day, month name, year). -/
def pat5 : DatePattern :=
  ⟨[.dig 1 2, .wsp 1, .word, .wsp 1, .dig 4 4], .dmyName⟩

/-- Pattern `(\w+)\s+(\d{1,2}),?\s+(\d{4})` — `startswith (\w+)` branch
(month name, day, year). -/
def pat6 : DatePattern :=
  ⟨[.word, .wsp 1, .dig 1 2, .optComma, .wsp 1, .dig 4 4], .mdyName⟩

/-- Pattern `(\d{1,2})\.(\d{1,2})\.(\d{4})` — `else` branch (day, month, year). -/
def pat7 : DatePattern :=
  ⟨[.dig 1 2, .lit ['.'], .dig 1 2, .lit ['.'], .dig 4 4], .dmyNum⟩

/-- The fixed priority-ordered pattern list of `_parse_date_from_text`. -/
def datePatterns : List DatePattern :=
  [pat0, pat1, pat2, pat3, pat4, pat5, pat6, pat7]

/-- Outcome of interpreting one matched pattern's groups, following the
source's exception behaviour: `found` — `datetime` construction succeeded
(the loop breaks with a result); `skip` — `datetime` raised `ValueError`
(caught by the inner `except ValueError: continue`); `abort` — the month
word was not in the lexicon, so `event_date` is never assigned and the
subsequent read raises `NameError`, which escapes to the outer
`except Exception` and ends the whole parse with no result. -/
inductive PatOut where
  | found (d : Date)
  | skip
  | abort
deriving DecidableEq, Repr

/-- Group interpretation of `_parse_date_from_text` (lines 286-307).  The
catch-all cases are unreachable for the eight patterns above, which all
have exactly three groups. -/
def interpGroups : GroupSem → List Str → PatOut
  | .dmyName, [d, m, y] =>
      (match parseMonthNoStrip m with
       | none => .abort
       | some mo =>
          match mkDate (strToNat y) mo (strToNat d) with
          | some dt => .found dt
          | none => .skip)
  | .ymdNum, [y, m, d] =>
      (match mkDate (strToNat y) (strToNat m) (strToNat d) with
       | some dt => .found dt
       | none => .skip)
  | .mdyName, [m, d, y] =>
      (match parseMonthNoStrip m with
       | none => .abort
       | some mo =>
          match mkDate (strToNat y) mo (strToNat d) with
          | some dt => .found dt
          | none => .skip)
  | .dmyNum, [d, m, y] =>
      (match mkDate (strToNat y) (strToNat m) (strToNat d) with
       | some dt => .found dt
       | none => .skip)
  | .dmyName, _ => .skip
  | .mdyName, _ => .skip
  | .dmyNum, _ => .skip
  | .ymdNum, _ => .abort

/-- Outcome of the pattern loop as a whole. -/
inductive LoopOut where
  | found (i : DateInfo)
  | abort
  | noneMatched
deriving DecidableEq, Repr

/-- The `for pattern in date_patterns` loop: first pattern that matches and
yields a valid date wins; a `ValueError` skips to the next pattern; an
unknown month word aborts the whole parse. -/
def tryPatterns : List DatePattern → Str → LoopOut
  | [], _ => .noneMatched
  | p :: ps, s =>
      (match searchToks p.toks s with
       | none => tryPatterns ps s
       | some g =>
          match interpGroups p.sem g with
          | .found dt => .found ⟨dt, formatDate dt⟩
          | .skip => tryPatterns ps s
          | .abort => .abort)

/-- Helper for `re.findall(r'\d+', text)`: collect the maximal runs of
digits, left to right (`cur` carries the current run, reversed). -/
def extractNumsAux : Option Str → Str → List Str
  | cur, [] =>
      (match cur with
       | some r => [r.reverse]
       | none => [])
  | cur, c :: rest =>
      if pyIsDigit c then extractNumsAux (some (c :: cur.getD [])) rest
      else
        match cur with
        | some r => r.reverse :: extractNumsAux none rest
        | none => extractNumsAux none rest

/-- Python `re.findall(r'\d+', text)`. -/
def extractNumbers (s : Str) : List Str := extractNumsAux none s

/-- The two assignment lines `date_info['event_date'] = event_date;
date_info['formatted_date'] = event_date.strftime('%d/%m/%Y')` guarded by
`datetime` construction: a valid triple yields both fields, an invalid one
(`ValueError`) yields nothing. -/
def dateInfoOf (y m d : Nat) : Option DateInfo :=
  match mkDate y m d with
  | some dt => some ⟨dt, formatDate dt⟩
  | none => none

/-- The positional reading of the numeric tokens by the fallback of
`_parse_date_from_text` (lines 318-335): with at least three tokens, year
first when the first token has four digits, else day/month/year with
two-digit years promoted by 2000; fewer than three tokens yield nothing. -/
def numericFallbackBase : List Str → Option DateInfo
  | n0 :: n1 :: n2 :: _ =>
      if n0.length = 4 then
        dateInfoOf (strToNat n0) (strToNat n1) (strToNat n2)
      else
        dateInfoOf (if strToNat n2 < 100 then strToNat n2 + 2000 else strToNat n2)
          (strToNat n1) (strToNat n0)
  | _ => none

/-- The numeric fallback applied to the text's digit runs. -/
def numericFallback (s : Str) : Option DateInfo :=
  numericFallbackBase (extractNumbers s)

/-- Function `EventScraper._parse_date_from_text`: run the pattern loop; on a hit
return its date; on an aborting exception return no result (the fallback
block is skipped because the exception escapes past it); if no pattern
produced anything, run the numeric fallback. -/
def parseDateFromText (s : Str) : Option DateInfo :=
  match tryPatterns datePatterns s with
  | .found i => some i
  | .abort => none
  | .noneMatched => numericFallback s

/-! ## Description sanitizer (`EventScraper._clean_description`) -/

/-- Python `str.replace(pat, '')` with a step budget (one unit per character
consumed); `replaceAll` below supplies `s.length`, which always suffices, and
exhausted budget returns the remainder unchanged. -/
def repAux : Nat → Str → Str → Str
  | 0, _, s => s
  | n + 1, pat, s =>
      (match s with
       | [] => []
       | c :: rest =>
          if pat ≠ [] ∧ pat.isPrefixOf s then repAux n pat (s.drop pat.length)
          else c :: repAux n pat rest)

/-- Python `str.replace(pat, '')`: delete every (leftmost, non-overlapping)
occurrence of `pat`. -/
def replaceAll (pat s : Str) : Str := repAux s.length pat s

/-- Head-is-whitespace test ( `[]` counts as no). -/
def headSp : Str → Bool
  | [] => false
  | c :: _ => pyIsSpace c

/-- Python `str.strip` on the left: drop leading whitespace. -/
def stripL (s : Str) : Str := s.dropWhile pyIsSpace

/-- Python `str.strip` on the right: drop trailing whitespace. -/
def stripR : Str → Str
  | [] => []
  | c :: rest =>
      (match stripR rest with
       | [] => if pyIsSpace c then [] else [c]
       | r => c :: r)

/-- Python `str.strip()`. -/
def pstrip (s : Str) : Str := stripR (stripL s)

/-- Python `re.sub(r'\s+', ' ', s)`: every maximal whitespace run becomes a
single `' '`.  `pv` records whether the previous character was whitespace. -/
def collapseAux : Bool → Str → Str
  | _, [] => []
  | pv, c :: rest =>
      if pyIsSpace c then
        (if pv then collapseAux true rest else ' ' :: collapseAux true rest)
      else c :: collapseAux false rest

/-- Python `re.sub(r'\s+', ' ', s)`. -/
def collapseRuns (s : Str) : Str := collapseAux false s

/-- The combination `re.sub(r'\s+', ' ', s).strip()` used at lines 376 and
403 of the source. -/
def normWS (s : Str) : Str := pstrip (collapseRuns s)

/-- Python `str.split('.')`: split at every `'.'`, keeping empty pieces. -/
def splitDot : Str → List Str
  | [] => [[]]
  | c :: rest =>
      if c = '.' then [] :: splitDot rest
      else
        match splitDot rest with
        | [] => [[c]]
        | p :: ps => (c :: p) :: ps

/-- Python `'. '.join(parts)`. -/
def joinDotSpace : List Str → Str
  | [] => []
  | [l] => l
  | l :: ls => l ++ '.' :: ' ' :: joinDotSpace ls

/-- The last character of a string, if any. -/
def lastChar : Str → Option Char
  | [] => none
  | [c] => some c
  | _ :: rest => lastChar rest

/-- Substring occurrence test (Python `in` on strings). -/
def occursIn (pat : Str) : Str → Bool
  | [] => pat.isPrefixOf []
  | c :: rest => pat.isPrefixOf (c :: rest) || occursIn pat rest

/-- Python `str.startswith`. -/
def startsWith (pat s : Str) : Bool := pat.isPrefixOf s

/-- The anchored phone-number test `re.match(r'^\d+[\s\-\(\)]*\d+', line)`:
one or more digits, then any run of whitespace/`-`/`(`/`)`, then at least
one more digit.  Because the separator class is disjoint from the digits,
backtracking reduces to: a second leading digit, or the maximal separator
run followed by a digit. -/
def isPhoneSep (c : Char) : Bool :=
  pyIsSpace c || c = '-' || c = '(' || c = ')'

def phoneStart : Str → Bool
  | [] => false
  | c :: rest =>
      pyIsDigit c &&
        (match rest.takeWhile pyIsDigit with
         | _ :: _ => true
         | [] =>
            match rest.dropWhile isPhoneSep with
            | d :: _ => pyIsDigit d
            | [] => false)

/-- The fixed boilerplate list `unwanted_phrases` of `_clean_description`. -/
def unwantedPhrases : List Str :=
  ["Dirección:".toList,
   "Teléfono:".toList,
   "E-mail:".toList,
   "Horario de atención:".toList,
   "Juan Carlos Gómez 32".toList,
   "(+598) 473 2 98 98".toList,
   "info@salto.gub.uy".toList,
   "Lunes a viernes de 8:30 a 15:00 horas".toList,
   "Sitio oficial de la".toList,
   "Intendencia de Salto".toList,
   "Los sitios oficiales tienen dominio salto.gub.uy".toList,
   "Los sitios salto.gub.uy son seguros".toList,
   "Un sitio web con extensión salto.gub.uy".toList,
   "Comparta información confidencial sólo en sitios web oficiales".toList]

/-- The fixed placeholder sentence returned when too little text survives. -/
def placeholderText : Str := "¡No te pierdas este evento en Salto!".toList

/-- Sentence filter of `_clean_description` (lines 385-392): keep a stripped
line only if it is non-empty, longer than 15 characters, does not start with
`4732` or `473`, contains no `@`, does not contain `gub.uy` or
`juan carlos gómez` case-insensitively, and does not start like a phone
number. -/
def keepLine (line : Str) : Bool :=
  !line.isEmpty &&
  decide (15 < line.length) &&
  !(startsWith "4732".toList line) &&
  !(startsWith "473".toList line) &&
  !(line.contains '@') &&
  !(occursIn "gub.uy".toList (lowerStr line)) &&
  !(occursIn "juan carlos gómez".toList (lowerStr line)) &&
  !(phoneStart line)

/-- Phase 1 of `_clean_description`: for each boilerplate phrase, delete all
its occurrences and strip the ends (`cleaned.replace(phrase, '').strip()`). -/
def removePhrases (s : Str) : Str :=
  unwantedPhrases.foldl (fun acc p => pstrip (replaceAll p acc)) s

/-- Phase 2: collapse whitespace runs and strip. -/
def collapsedText (s : Str) : Str := normWS (removePhrases s)

/-- Phase 3a: split on periods and strip each candidate sentence. -/
def candidateLines (s : Str) : List Str :=
  (splitDot (collapsedText s)).map pstrip

/-- Phase 3b: the surviving sentences. -/
def keptLines (s : Str) : List Str := (candidateLines s).filter keepLine

/-- Phase 4: when some sentences survive, rejoin them with `'. '` and ensure
a trailing period; otherwise the phase-2 text is kept unchanged
(`if filtered_lines:` in the source). -/
def rejoined (s : Str) : Str :=
  match keptLines s with
  | [] => collapsedText s
  | ls =>
      let j := joinDotSpace ls
      if lastChar j = some '.' then j else j ++ ['.']

/-- Phases 1-5 of `_clean_description` for non-empty input, before the final
length check. -/
def cleanCore (s : Str) : Str := normWS (rejoined s)

/-- Function `EventScraper._clean_description`: empty input returns the empty string
(`if not description: return ""`); otherwise run the pipeline and replace a
result shorter than 30 characters by the fixed placeholder sentence. -/
def cleanDescription (s : Str) : Str :=
  if s = [] then []
  else if (cleanCore s).length < 30 then placeholderText
  else cleanCore s

/-! ## Parsed documents and the scraper's selectors

A parsed HTML page is a tree of elements (tag, class list, attributes,
children) and text leaves.  The specific CSS selectors used by
`_scrape_individual_event` are embedded as executable collectors that walk
the tree in document (pre-)order, carrying exactly the ancestor context each
selector needs; `select_one` is the head of the corresponding `select`
list, matching soupsieve's document-order semantics. -/

mutual
inductive Node where
  | text (s : Str)
  | elem (tag : String) (classes : List String) (attrs : List (String × Str))
      (children : NodeList)
inductive NodeList where
  | nil
  | cons (hd : Node) (tl : NodeList)
end

deriving instance DecidableEq for Node

/-- Attribute lookup (`tag.get(name)`), first binding wins. -/
def getAttr (n : Node) (name : String) : Option Str :=
  match n with
  | .text _ => none
  | .elem _ _ attrs _ =>
      (attrs.find? (fun a => a.1 = name)).map (fun a => a.2)

def hasClass (n : Node) (c : String) : Bool :=
  match n with
  | .text _ => false
  | .elem _ classes _ _ => classes.contains c

def isTag (n : Node) (t : String) : Bool :=
  match n with
  | .text _ => false
  | .elem tag _ _ _ => tag = t

mutual
/-- Raw page text, `soup.get_text()`: concatenation of all text leaves. -/
def textRaw : Node → Str
  | .text s => s
  | .elem _ _ _ cs => textRawL cs
def textRawL : NodeList → Str
  | .nil => []
  | .cons n ns => textRaw n ++ textRawL ns
end

mutual
/-- Stripped element text, `tag.get_text(strip=True)`: each text leaf is
stripped and the results are concatenated (separator `''`). -/
def textStrip : Node → Str
  | .text s => pstrip s
  | .elem _ _ _ cs => textStripL cs
def textStripL : NodeList → Str
  | .nil => []
  | .cons n ns => textStrip n ++ textStripL ns
end

mutual
/-- Generic pre-order collector: visit every node, carrying a context `ctx`
computed from the ancestors (children see `upd ctx parent`), and collect the
nodes on which `hit` fires, in document order. -/
def collectCtx {α : Type} (upd : α → Node → α) (hit : α → Node → Bool) :
    α → Node → List Node
  | ctx, .text s =>
      if hit ctx (.text s) then [.text s] else []
  | ctx, .elem t c a cs =>
      (if hit ctx (.elem t c a cs) then [Node.elem t c a cs] else []) ++
        collectCtxL upd hit (upd ctx (.elem t c a cs)) cs
def collectCtxL {α : Type} (upd : α → Node → α) (hit : α → Node → Bool) :
    α → NodeList → List Node
  | _, .nil => []
  | ctx, .cons n ns => collectCtx upd hit ctx n ++ collectCtxL upd hit ctx ns
end

/-- Collector for a context-free node predicate (simple selectors,
`find_all` with a tag name or class test). -/
def collectPred (p : Node → Bool) (doc : Node) : List Node :=
  collectCtx (fun _ _ => ()) (fun _ n => p n) () doc

/-- Selector `.page-content > .title span`: spans having an ancestor with
class `title` whose parent has class `page-content`.  Context: (parent has
class `page-content`, some ancestor is such a qualified `.title`). -/
def selPCChildTitleSpan (doc : Node) : List Node :=
  collectCtx
    (fun ctx n => (hasClass n "page-content", ctx.2 || (ctx.1 && hasClass n "title")))
    (fun ctx n => ctx.2 && isTag n "span")
    (false, false) doc

/-- Selector `.page-content .title span`: spans having an ancestor with
class `title` that itself has an ancestor with class `page-content`. -/
def selPCTitleSpan (doc : Node) : List Node :=
  collectCtx
    (fun ctx n =>
      (ctx.1 || hasClass n "page-content", ctx.2 || (ctx.1 && hasClass n "title")))
    (fun ctx n => ctx.2 && isTag n "span")
    (false, false) doc

/-- Selector `.title span`. -/
def selTitleSpan (doc : Node) : List Node :=
  collectCtx
    (fun ctx n => ctx || hasClass n "title")
    (fun ctx n => ctx && isTag n "span")
    false doc

/-- Selector `header > div`. -/
def selHeaderChildDiv (doc : Node) : List Node :=
  collectCtx
    (fun _ n => isTag n "header")
    (fun ctx n => ctx && isTag n "div")
    false doc

/-- Selector `header div`. -/
def selHeaderDiv (doc : Node) : List Node :=
  collectCtx
    (fun ctx n => ctx || isTag n "header")
    (fun ctx n => ctx && isTag n "div")
    false doc

/-- Selector `.field > img`. -/
def selFieldChildImg (doc : Node) : List Node :=
  collectCtx
    (fun _ n => hasClass n "field")
    (fun ctx n => ctx && isTag n "img")
    false doc

/-- Selector `.field > p > span`. -/
def selFieldPSpanChild (doc : Node) : List Node :=
  collectCtx
    (fun ctx n => (hasClass n "field", ctx.1 && isTag n "p"))
    (fun ctx n => ctx.2 && isTag n "span")
    (false, false) doc

/-- Selector `.field p span`. -/
def selFieldPSpanDesc (doc : Node) : List Node :=
  collectCtx
    (fun ctx n => (ctx.1 || hasClass n "field", ctx.2 || (ctx.1 && isTag n "p")))
    (fun ctx n => ctx.2 && isTag n "span")
    (false, false) doc

/-- Selector `.field p`. -/
def selFieldP (doc : Node) : List Node :=
  collectCtx
    (fun ctx n => ctx || hasClass n "field")
    (fun ctx n => ctx && isTag n "p")
    false doc

/-- Selector `.content p`. -/
def selContentP (doc : Node) : List Node :=
  collectCtx
    (fun ctx n => ctx || hasClass n "content")
    (fun ctx n => ctx && isTag n "p")
    false doc

/-- Selector by single class name (`.date`, `.field--name-body`, ...). -/
def selByClass (c : String) (doc : Node) : List Node :=
  collectPred (fun n => hasClass n c) doc

/-- Selector by tag name (`h1`, `time`, ...). -/
def selByTag (t : String) (doc : Node) : List Node :=
  collectPred (fun n => isTag n t) doc

/-- The call `soup.select('.field--name-body')`: the body-content blocks, in document
order. -/
def bodyBlocks (doc : Node) : List Node := selByClass "field--name-body" doc

/-! ## Field extraction (`EventScraper._scrape_individual_event`) -/

/-- The scraper's base URL (`self.base_url`). -/
def baseUrl : Str := "https://www.salto.gub.uy".toList

/-- The listing URL (`self.events_url`). -/
def eventsUrl : Str := "https://www.salto.gub.uy/eventos".toList

/-- Models `urllib.parse.urljoin(base, href)` for the base URL above (scheme
and authority, empty path) and the href shapes the site uses: an absolute
URL is returned unchanged, a protocol-relative `//host/...` gets the base
scheme, a root-relative path is appended to the authority, and any other
relative reference resolves against the empty base path. -/
def urljoinM (base href : Str) : Str :=
  if occursIn "://".toList href then href
  else if startsWith "//".toList href then "https:".toList ++ href
  else if startsWith "/".toList href then base ++ href
  else if href = [] then base
  else base ++ '/' :: href

/-- Title selector chain (source lines 135-141): the specific selector
first, then the looser alternatives; the element (not its text) is tested
for presence. -/
def titleElem (doc : Node) : Option Node :=
  match (selPCChildTitleSpan doc).head? with
  | some e => some e
  | none =>
      (match (selPCTitleSpan doc).head? with
       | some e => some e
       | none =>
          match (selTitleSpan doc).head? with
          | some e => some e
          | none =>
             match (selByTag "h1" doc).head? with
             | some e => some e
             | none => (selByClass "page-title" doc).head?)

/-- Date zone 3: the alternative selector list (source lines 178-187), each
tried with `select_one`; a present element whose text fails to parse falls
through to the next selector. -/
def altDateSelectors : List (Node → List Node) :=
  [selHeaderDiv, selByClass "date", selByClass "fecha", selByClass "event-date",
   selByClass "field-name-field-date", selByClass "field-type-datetime",
   selByTag "time", selByClass "datetime"]

/-- The `for selector in alternative_selectors` loop: take the first
selector whose first matching element exists and whose text parses; an
element whose text fails to parse falls through to the next selector. -/
def altZone : List (Node → List Node) → Node → Option DateInfo
  | [], _ => none
  | sel :: rest, doc =>
      (match (sel doc).head? with
       | none => altZone rest doc
       | some e =>
          match parseDateFromText (textStrip e) with
          | some i => some i
          | none => altZone rest doc)

/-- The four date-candidate zones of `_scrape_individual_event` (lines
150-207), in priority order, each zone succeeding only when its text
actually parses: 1. the first body-content block; 2. `header > div`;
3. the alternative selectors; 4. the entire page text. -/
def zoneDate (doc : Node) : Option DateInfo :=
  match
    (match bodyBlocks doc with
     | b :: _ => parseDateFromText (textStrip b)
     | [] => none) with
  | some i => some i
  | none =>
      (match
        (match (selHeaderChildDiv doc).head? with
         | none => none
         | some e => parseDateFromText (textStrip e)) with
       | some i => some i
       | none =>
          match altZone altDateSelectors doc with
          | some i => some i
          | none => parseDateFromText (textRaw doc))

/-- Image URL extraction (lines 213-218): `.field > img`, `src` falling back
to `data-src` (Python `or`, so an empty `src` also falls through), joined to
an absolute URL.  The image download itself is I/O and out of the model. -/
def imageUrl (doc : Node) : Option Str :=
  (selFieldChildImg doc).head? >>= fun img =>
    let src :=
      match getAttr img "src" with
      | some v => if v = [] then getAttr img "data-src" else some v
      | none => getAttr img "data-src"
    match src with
    | some v => if v = [] then none else some (urljoinM baseUrl v)
    | none => none

/-- Description extraction (lines 227-246): the first body-content block's
text if any block exists, else the paragraph-selector cascade, else the
fixed fallback sentence. -/
def descriptionOf (doc : Node) : Str :=
  match bodyBlocks doc with
  | b :: _ => cleanDescription (textStrip b)
  | [] =>
      (match
        (match (selFieldPSpanChild doc).head? with
         | some e => some e
         | none =>
            match (selFieldPSpanDesc doc).head? with
            | some e => some e
            | none =>
               match (selFieldP doc).head? with
               | some e => some e
               | none => (selContentP doc).head?) with
       | some e => cleanDescription (textStrip e)
       | none => "¡No te pierdas este evento en Salto!".toList)

/-- The assembled event record (data model of the spec).  `scraped_at` is a
wall-clock timestamp and `image_path` the result of the image download;
both are I/O effects outside the model. -/
structure EventRecord where
  title : Str
  description : Str
  event_date : Option Date
  formatted_date : Option Str
  image_url : Option Str
  link : Str
deriving DecidableEq, Repr

/-- Function `EventScraper._scrape_individual_event` on an already-fetched, parsed
document: fails (returns no record) exactly when the title chain is
exhausted; otherwise assembles the record, with the date fields both set
from the first zone parse that succeeded, or both absent. -/
def scrapeEvent (doc : Node) (url : Str) : Option EventRecord :=
  match titleElem doc with
  | none => none
  | some te =>
      let d := zoneDate doc
      some
        { title := textStrip te
          description := descriptionOf doc
          event_date := d.map (fun i => i.event_date)
          formatted_date := d.map (fun i => i.formatted_date)
          image_url := imageUrl doc
          link := url }

/-! ## Link discovery (`EventScraper.scrape_events`, lines 74-98) -/

/-- The call `soup.find_all('article')`. -/
def isArticle (n : Node) : Bool := isTag n "article"

/-- The call `soup.find_all('div', class_=lambda x: x and 'evento' in str(x).lower())`:
a `div` one of whose class values contains `evento` (case-insensitively). -/
def isDivEvento (n : Node) : Bool :=
  isTag n "div" &&
    (match n with
     | .text _ => false
     | .elem _ classes _ _ =>
        classes.any (fun c => occursIn "evento".toList (lowerStr c.toList)))

/-- The article-like blocks: all `article` tags, or, when there are none,
the `evento`-classed divs (Python `or` between the two `find_all` calls). -/
def articleBlocks (doc : Node) : List Node :=
  match collectPred isArticle doc with
  | [] => collectPred isDivEvento doc
  | a => a

/-- A hyperlink with an `href` attribute (`find_all('a', href=True)`). -/
def isAnchorHref (n : Node) : Bool :=
  isTag n "a" &&
    (match getAttr n "href" with
     | some _ => true
     | none => false)

/-- The call `article.find('a', href=True)`: first matching descendant. -/
def firstAnchor (art : Node) : Option Node :=
  match art with
  | .text _ => none
  | .elem _ _ _ cs => (collectCtxL (fun _ _ => ()) (fun _ n => isAnchorHref n) () cs).head?

/-- The href values of all hyperlinks of the page, in document order. -/
def pageHrefs (doc : Node) : List Str :=
  (collectPred isAnchorHref doc).filterMap (fun n => getAttr n "href")

/-- Keyword filter of the fallback scan: a non-empty href containing
`evento` case-insensitively or the literal `/node/`. -/
def keepHref (h : Str) : Bool :=
  !h.isEmpty &&
    (occursIn "evento".toList (lowerStr h) || occursIn "/node/".toList h)

/-- One step of the fallback scan (lines 93-98): keep a keyword href,
absolutise it, and append it when not yet collected and not the listing URL
itself. -/
def scanStep (acc : List Str) (h : Str) : List Str :=
  if keepHref h then
    let u := urljoinM baseUrl h
    if u ∉ acc ∧ u ≠ eventsUrl then acc ++ [u] else acc
  else acc

/-- The fallback scan over all hyperlinks (lines 91-98). -/
def fallbackScan (doc : Node) : List Str :=
  (pageHrefs doc).foldl scanStep []

/-- The article loop (lines 80-88): first anchor of each article block,
absolutised only when it does not start with `http`, deduplicated. -/
def articleLinks (doc : Node) : List Str :=
  (articleBlocks doc).foldl
    (fun acc art =>
      match firstAnchor art with
      | none => acc
      | some l =>
          let h := (getAttr l "href").getD []
          let h2 := if h ≠ [] ∧ ¬ startsWith "http".toList h then urljoinM baseUrl h else h
          if h2 ≠ [] ∧ h2 ∉ acc then acc ++ [h2] else acc)
    []

/-- Link discovery of `scrape_events`: links from article blocks when any
were found, else the fallback scan over every hyperlink. -/
def discoverEventLinks (doc : Node) : List Str :=
  match articleLinks doc with
  | [] => fallbackScan doc
  | ls => ls

/-- Specification-side first-occurrence deduplication (used to state C7):
keep each URL's first occurrence, in order. -/
def dedupAux (seen : List Str) : List Str → List Str
  | [] => []
  | x :: xs => if x ∈ seen then dedupAux seen xs else x :: dedupAux (x :: seen) xs

def dedupKeepFirst (l : List Str) : List Str := dedupAux [] l

/-! ## Lemmas about the pattern loop -/

theorem tryPatterns_cons_none {p : DatePattern} {ps : List DatePattern} {s : Str}
    (h : searchToks p.toks s = none) :
    tryPatterns (p :: ps) s = tryPatterns ps s := by
  simp only [tryPatterns, h]

theorem tryPatterns_cons_skip {p : DatePattern} {ps : List DatePattern} {s : Str}
    {g : List Str} (h : searchToks p.toks s = some g)
    (hi : interpGroups p.sem g = .skip) :
    tryPatterns (p :: ps) s = tryPatterns ps s := by
  simp only [tryPatterns, h, hi]

theorem tryPatterns_cons_abort {p : DatePattern} {ps : List DatePattern} {s : Str}
    {g : List Str} (h : searchToks p.toks s = some g)
    (hi : interpGroups p.sem g = .abort) :
    tryPatterns (p :: ps) s = .abort := by
  simp only [tryPatterns, h, hi]

theorem tryPatterns_append_none {s : Str} :
    ∀ (pre rest : List DatePattern), (∀ q ∈ pre, searchToks q.toks s = none) →
      tryPatterns (pre ++ rest) s = tryPatterns rest s := by
  intro pre
  induction pre with
  | nil => intro rest _; rfl
  | cons p pre ih =>
      intro rest h
      rw [List.cons_append,
        tryPatterns_cons_none (h p (List.mem_cons_self p pre))]
      exact ih rest (fun q hq => h q (List.mem_cons_of_mem p hq))

theorem tryPatterns_all_none {s : Str} :
    ∀ ps : List DatePattern, (∀ p ∈ ps, searchToks p.toks s = none) →
      tryPatterns ps s = .noneMatched := by
  intro ps h
  have := tryPatterns_append_none ps [] h
  rw [List.append_nil] at this
  exact this.trans rfl

theorem tryPatterns_found_formats {s : Str} :
    ∀ (ps : List DatePattern) (i : DateInfo), tryPatterns ps s = .found i →
      i.formatted_date = formatDate i.event_date := by
  intro ps
  induction ps with
  | nil => intro i h; simp [tryPatterns] at h
  | cons p ps ih =>
      intro i h
      simp only [tryPatterns] at h
      cases hs : searchToks p.toks s with
      | none => rw [hs] at h; exact ih i h
      | some g =>
          simp only [hs] at h
          cases hi : interpGroups p.sem g with
          | found dt => simp only [hi] at h; cases h; rfl
          | skip => simp only [hi] at h; exact ih i h
          | abort => simp only [hi] at h; cases h

theorem dateInfoOf_formats {y m d : Nat} {i : DateInfo}
    (h : dateInfoOf y m d = some i) :
    i.formatted_date = formatDate i.event_date := by
  unfold dateInfoOf at h
  cases hm : mkDate y m d with
  | none => rw [hm] at h; cases h
  | some dt => rw [hm] at h; cases h; rfl

theorem numericFallbackBase_formats {ns : List Str} {i : DateInfo}
    (h : numericFallbackBase ns = some i) :
    i.formatted_date = formatDate i.event_date := by
  cases ns with
  | nil => cases h
  | cons n0 tl =>
      cases tl with
      | nil => cases h
      | cons n1 tl2 =>
          cases tl2 with
          | nil => cases h
          | cons n2 tl3 =>
              simp only [numericFallbackBase] at h
              by_cases h4 : n0.length = 4
              · rw [if_pos h4] at h; exact dateInfoOf_formats h
              · rw [if_neg h4] at h; exact dateInfoOf_formats h

theorem numericFallback_formats {s : Str} {i : DateInfo}
    (h : numericFallback s = some i) :
    i.formatted_date = formatDate i.event_date :=
  numericFallbackBase_formats h

theorem parse_formats {s : Str} {i : DateInfo}
    (h : parseDateFromText s = some i) :
    i.formatted_date = formatDate i.event_date := by
  unfold parseDateFromText at h
  cases ht : tryPatterns datePatterns s with
  | found j =>
      rw [ht] at h
      cases h
      exact tryPatterns_found_formats datePatterns _ ht
  | abort => rw [ht] at h; cases h
  | noneMatched => rw [ht] at h; exact numericFallback_formats h

/-! ## Claim theorems: date parser -/

/-- C1: each of the seven supported renderings of 6 August 2025 parses to
the calendar date 2025-08-06 with `formatted_date = "06/08/2025"`. -/
theorem claim1_seven_supported_formats :
    parseDateFromText "6 de agosto de 2025".toList =
      some ⟨⟨2025, 8, 6⟩, "06/08/2025".toList⟩ ∧
    parseDateFromText "06/08/2025".toList =
      some ⟨⟨2025, 8, 6⟩, "06/08/2025".toList⟩ ∧
    parseDateFromText "06-08-2025".toList =
      some ⟨⟨2025, 8, 6⟩, "06/08/2025".toList⟩ ∧
    parseDateFromText "2025-08-06".toList =
      some ⟨⟨2025, 8, 6⟩, "06/08/2025".toList⟩ ∧
    parseDateFromText "6 agosto 2025".toList =
      some ⟨⟨2025, 8, 6⟩, "06/08/2025".toList⟩ ∧
    parseDateFromText "agosto 6, 2025".toList =
      some ⟨⟨2025, 8, 6⟩, "06/08/2025".toList⟩ ∧
    parseDateFromText "06.08.2025".toList =
      some ⟨⟨2025, 8, 6⟩, "06/08/2025".toList⟩ :=
  ⟨by decide, by decide, by decide, by decide, by decide, by decide, by decide⟩

/-- C2: a matched pattern whose captured values do not form a valid calendar
date (Python `ValueError`) is skipped and the next-priority pattern is tried
(first conjunct); and when the whole pattern loop produces nothing and the
numeric fallback also fails, the parser returns no result rather than
raising (second conjunct; the parser is a total function into `Option`). -/
theorem claim2_invalid_values_skip_pattern :
    (∀ (p : DatePattern) (ps : List DatePattern) (s : Str) (g : List Str),
        searchToks p.toks s = some g → interpGroups p.sem g = .skip →
        tryPatterns (p :: ps) s = tryPatterns ps s) ∧
    (∀ s : Str, tryPatterns datePatterns s = .noneMatched →
        numericFallback s = none → parseDateFromText s = none) := by
  constructor
  · intro p ps s g h hi
    exact tryPatterns_cons_skip h hi
  · intro s ht hf
    unfold parseDateFromText
    rw [ht, hf]

/-- Witness for C2: on `"32/13/2025"`, pattern `(\d{1,2})/(\d{1,2})/(\d{4})`
matches with day 32 and month 13, `datetime` rejects the triple, and the
loop moves past the pattern; on `"hola"`, no pattern and no fallback
succeed and the parser returns `none`. -/
theorem claim2_witness :
    (searchToks pat1.toks "32/13/2025".toList =
        some ["32".toList, "13".toList, "2025".toList] ∧
      interpGroups pat1.sem ["32".toList, "13".toList, "2025".toList] = .skip ∧
      tryPatterns (pat1 :: [pat7]) "32/13/2025".toList =
        tryPatterns [pat7] "32/13/2025".toList) ∧
    (tryPatterns datePatterns "hola".toList = .noneMatched ∧
      numericFallback "hola".toList = none ∧
      parseDateFromText "hola".toList = none) :=
  ⟨⟨by decide, by decide,
      claim2_invalid_values_skip_pattern.1 pat1 [pat7] "32/13/2025".toList
        ["32".toList, "13".toList, "2025".toList] (by decide) (by decide)⟩,
    ⟨by decide, by decide,
      claim2_invalid_values_skip_pattern.2 "hola".toList (by decide) (by decide)⟩⟩

/-- C9: when no date pattern matches anywhere in the text, the parser is
exactly the numeric fallback; and the fallback reads the first three numeric
tokens positionally — year first when the first token has four digits,
otherwise day/month/year with years below 100 promoted by 2000 — building a
date exactly when the values are valid, and returns nothing when fewer than
three numeric tokens occur. -/
theorem claim9_numeric_fallback (s : Str) :
    ((∀ p ∈ datePatterns, searchToks p.toks s = none) →
      parseDateFromText s = numericFallback s) ∧
    (∀ (n0 n1 n2 : Str) (rest : List Str),
      extractNumbers s = n0 :: n1 :: n2 :: rest →
      (n0.length = 4 →
        numericFallback s = dateInfoOf (strToNat n0) (strToNat n1) (strToNat n2)) ∧
      (n0.length ≠ 4 →
        numericFallback s =
          dateInfoOf (if strToNat n2 < 100 then strToNat n2 + 2000 else strToNat n2)
            (strToNat n1) (strToNat n0))) ∧
    ((extractNumbers s).length < 3 → numericFallback s = none) := by
  refine ⟨?_, ?_, ?_⟩
  · intro h
    unfold parseDateFromText
    rw [tryPatterns_all_none datePatterns h]
  · intro n0 n1 n2 rest hns
    constructor
    · intro h4
      unfold numericFallback
      rw [hns]
      simp only [numericFallbackBase]
      rw [if_pos h4]
    · intro h4
      unfold numericFallback
      rw [hns]
      simp only [numericFallbackBase]
      rw [if_neg h4]
  · intro hlt
    unfold numericFallback
    cases hns : extractNumbers s with
    | nil => rfl
    | cons n0 tl =>
        cases tl with
        | nil => rfl
        | cons n1 tl2 =>
            cases tl2 with
            | nil => rfl
            | cons n2 tl3 =>
                rw [hns] at hlt
                simp at hlt
                omega

/-- Witness for C9: `"7 2 99"` matches no pattern; its numeric tokens are
`7`, `2`, `99`, read as day 7, month 2, year 99 promoted to 2099. -/
theorem claim9_witness :
    parseDateFromText "7 2 99".toList = numericFallback "7 2 99".toList ∧
    numericFallback "7 2 99".toList =
      dateInfoOf 2099 2 7 ∧
    parseDateFromText "7 2 99".toList =
      some ⟨⟨2099, 2, 7⟩, "07/02/2099".toList⟩ :=
  ⟨(claim9_numeric_fallback "7 2 99".toList).1 (by decide),
    (((claim9_numeric_fallback "7 2 99".toList).2.1
        "7".toList "2".toList "99".toList [] (by decide)).2 (by decide)).trans
      (by decide),
    ((claim9_numeric_fallback "7 2 99".toList).1 (by decide)).trans (by decide)⟩

/-- C10: when every pattern before `p` fails to match, `p` matches, and `p`
is a month-name pattern whose month word is not in the lexicon, the whole
parse returns no result: the `NameError` raised by reading the unassigned
`event_date` escapes past the remaining patterns and past the numeric
fallback. -/
theorem claim10_month_miss_aborts
    (s : Str) (pre : List DatePattern) (p : DatePattern) (ps : List DatePattern)
    (g1 g2 g3 : Str)
    (hsplit : datePatterns = pre ++ p :: ps)
    (hpre : ∀ q ∈ pre, searchToks q.toks s = none)
    (hp : searchToks p.toks s = some [g1, g2, g3])
    (hmonth : (p.sem = .dmyName ∧ parseMonthNoStrip g2 = none) ∨
      (p.sem = .mdyName ∧ parseMonthNoStrip g1 = none)) :
    parseDateFromText s = none := by
  unfold parseDateFromText
  rw [hsplit, tryPatterns_append_none pre (p :: ps) hpre]
  have habort : interpGroups p.sem [g1, g2, g3] = .abort := by
    rcases hmonth with ⟨hsem, hm⟩ | ⟨hsem, hm⟩ <;>
      · rw [hsem]
        simp only [interpGroups, hm]
  rw [tryPatterns_cons_abort hp habort]

/-- Witness for C10: in `"06 08 2025"`, the first matching pattern is
`(\d{1,2})\s+(\w+)\s+(\d{4})` with month word `"08"`, which is not in the
month lexicon, so the parser returns no result — even though the numeric
fallback alone would have accepted the three tokens. -/
theorem claim10_witness :
    parseDateFromText "06 08 2025".toList = none ∧
    numericFallback "06 08 2025".toList =
      some ⟨⟨2025, 8, 6⟩, "06/08/2025".toList⟩ :=
  ⟨claim10_month_miss_aborts "06 08 2025".toList
      [pat0, pat1, pat2, pat3, pat4] pat5 [pat6, pat7]
      "06".toList "08".toList "2025".toList
      rfl (by decide) (by decide) (Or.inl ⟨rfl, by decide⟩),
    by decide⟩

/-! ## Lemmas about the date zones and the assembled record -/

theorem altZone_formats {i : DateInfo} :
    ∀ (sels : List (Node → List Node)) (doc : Node),
      altZone sels doc = some i →
      i.formatted_date = formatDate i.event_date := by
  intro sels
  induction sels with
  | nil => intro doc h; cases h
  | cons sel rest ih =>
      intro doc h
      simp only [altZone] at h
      cases he : (sel doc).head? with
      | none => rw [he] at h; exact ih doc h
      | some e =>
          simp only [he] at h
          cases hp : parseDateFromText (textStrip e) with
          | none => simp only [hp] at h; exact ih doc h
          | some j => simp only [hp] at h; cases h; exact parse_formats hp

theorem zoneDate_formats {doc : Node} {i : DateInfo}
    (h : zoneDate doc = some i) :
    i.formatted_date = formatDate i.event_date := by
  unfold zoneDate at h
  cases hb :
      (match bodyBlocks doc with
       | b :: _ => parseDateFromText (textStrip b)
       | [] => none) with
  | some j =>
      rw [hb] at h
      cases h
      cases hbb : bodyBlocks doc with
      | nil => rw [hbb] at hb; cases hb
      | cons b bs => rw [hbb] at hb; exact parse_formats hb
  | none =>
      rw [hb] at h
      cases hh :
          (match (selHeaderChildDiv doc).head? with
           | none => none
           | some e => parseDateFromText (textStrip e)) with
      | some j =>
          rw [hh] at h
          cases h
          cases hhd : (selHeaderChildDiv doc).head? with
          | none => rw [hhd] at hh; cases hh
          | some e => rw [hhd] at hh; exact parse_formats hh
      | none =>
          rw [hh] at h
          cases ha : altZone altDateSelectors doc with
          | some j =>
              rw [ha] at h
              cases h
              exact altZone_formats altDateSelectors doc ha
          | none =>
              rw [ha] at h
              exact parse_formats h

/-- The record produced by a successful extraction, as a function of its
parts (used to reason about `scrapeEvent`). -/
theorem scrapeEvent_some {doc : Node} {url : Str} {r : EventRecord}
    (h : scrapeEvent doc url = some r) :
    ∃ te, titleElem doc = some te ∧
      r = { title := textStrip te
            description := descriptionOf doc
            event_date := (zoneDate doc).map (fun i => i.event_date)
            formatted_date := (zoneDate doc).map (fun i => i.formatted_date)
            image_url := imageUrl doc
            link := url } := by
  unfold scrapeEvent at h
  cases ht : titleElem doc with
  | none => rw [ht] at h; cases h
  | some te =>
      rw [ht] at h
      cases h
      exact ⟨te, rfl, rfl⟩

/-! ## Claim theorems: record invariant (C8) -/

/-- C8: in every parser result, `formatted_date` is exactly the
`DD/MM/YYYY` rendering of `event_date` from the same parse (first
conjunct); and in every assembled event record the two date fields are
present together or absent together, the rendering again coming from the
same parse (second conjunct). -/
theorem claim8_formatted_iff_event_date :
    (∀ (s : Str) (i : DateInfo), parseDateFromText s = some i →
        i.formatted_date = formatDate i.event_date) ∧
    (∀ (doc : Node) (url : Str) (r : EventRecord), scrapeEvent doc url = some r →
        (r.event_date = none ↔ r.formatted_date = none) ∧
        (∀ d, r.event_date = some d → r.formatted_date = some (formatDate d))) := by
  constructor
  · intro s i h
    exact parse_formats h
  · intro doc url r h
    obtain ⟨te, -, hr⟩ := scrapeEvent_some h
    subst hr
    cases hz : zoneDate doc with
    | none =>
        constructor
        · simp [hz]
        · intro d hd
          simp [hz] at hd
    | some i =>
        refine ⟨⟨fun hd => ?_, fun hd => ?_⟩, fun d hd => ?_⟩
        · simp [hz] at hd
        · simp [hz] at hd
        · simp only [hz, Option.map_some'] at hd ⊢
          cases hd
          rw [zoneDate_formats hz]

/-- Witness for C8: `"06/08/2025"` parses, and its stored
`formatted_date` equals the rendering of its stored `event_date`; likewise
for the record scraped from a one-body-block page around that text. -/
theorem claim8_witness :
    "06/08/2025".toList = formatDate ⟨2025, 8, 6⟩ ∧
    (Option.some "06/08/2025".toList = some (formatDate ⟨2025, 8, 6⟩)) :=
  ⟨claim8_formatted_iff_event_date.1 "06/08/2025".toList
      ⟨⟨2025, 8, 6⟩, "06/08/2025".toList⟩ (by decide),
    (claim8_formatted_iff_event_date.2
        (.elem "html" [] []
          (.cons (.elem "h1" [] [] (.cons (.text "Feria".toList) .nil))
            (.cons (.elem "div" ["field--name-body"] []
              (.cons (.text "Feria el 06/08/2025 en la plaza central de la ciudad".toList) .nil))
              .nil)))
        "u".toList
        { title := "Feria".toList
          description := "Feria el 06/08/2025 en la plaza central de la ciudad.".toList
          event_date := some ⟨2025, 8, 6⟩
          formatted_date := some "06/08/2025".toList
          image_url := none
          link := "u".toList }
        (by decide)).2 ⟨2025, 8, 6⟩ rfl⟩

/-! ## Claim theorems: body-block isolation (C3) -/

/-- Counterexample to C3: two documents that differ only in the text of the
second body-content block.  Their descriptions agree (the description really
only uses the first block), but their parsed dates differ: the first block's
text does not parse, zones 2 and 3 are absent, and the last-resort zone
reads the text of the whole page — including the second body block, where
only one of the two documents carries a date. -/
theorem claim3_counterexample :
    (scrapeEvent
        (.elem "html" [] []
          (.cons (.elem "h1" [] [] (.cons (.text "Fiesta".toList) .nil))
            (.cons (.elem "div" ["field--name-body"] [] (.cons (.text "hola".toList) .nil))
              (.cons (.elem "div" ["field--name-body"] [] (.cons (.text "contacto".toList) .nil))
                .nil))))
        "u".toList).map (fun r => r.description) =
      (scrapeEvent
        (.elem "html" [] []
          (.cons (.elem "h1" [] [] (.cons (.text "Fiesta".toList) .nil))
            (.cons (.elem "div" ["field--name-body"] [] (.cons (.text "hola".toList) .nil))
              (.cons (.elem "div" ["field--name-body"] [] (.cons (.text "06/08/2025".toList) .nil))
                .nil))))
        "u".toList).map (fun r => r.description) ∧
    (scrapeEvent
        (.elem "html" [] []
          (.cons (.elem "h1" [] [] (.cons (.text "Fiesta".toList) .nil))
            (.cons (.elem "div" ["field--name-body"] [] (.cons (.text "hola".toList) .nil))
              (.cons (.elem "div" ["field--name-body"] [] (.cons (.text "contacto".toList) .nil))
                .nil))))
        "u".toList).map (fun r => r.event_date) ≠
      (scrapeEvent
        (.elem "html" [] []
          (.cons (.elem "h1" [] [] (.cons (.text "Fiesta".toList) .nil))
            (.cons (.elem "div" ["field--name-body"] [] (.cons (.text "hola".toList) .nil))
              (.cons (.elem "div" ["field--name-body"] [] (.cons (.text "06/08/2025".toList) .nil))
                .nil))))
        "u".toList).map (fun r => r.event_date) :=
  ⟨by decide, by decide⟩

/-- C3 (amended): only the first body-content block is used as the
description source and as date-candidate zone 1 — the description of every
extracted record is the sanitised text of the first block, and whenever the
first block's text parses, both date fields come from that parse.  (The
original claim fails only because, when zone 1 does not parse and zones 2-3
are absent, the whole-page fallback zone also reads the later blocks.) -/
theorem claim3_first_body_block_amended
    (doc : Node) (url : Str) (r : EventRecord) (b : Node) (bs : List Node)
    (h : scrapeEvent doc url = some r)
    (hb : bodyBlocks doc = b :: bs) :
    r.description = cleanDescription (textStrip b) ∧
    (∀ i, parseDateFromText (textStrip b) = some i →
        r.event_date = some i.event_date ∧
        r.formatted_date = some i.formatted_date) := by
  obtain ⟨te, -, hr⟩ := scrapeEvent_some h
  subst hr
  constructor
  · show descriptionOf doc = _
    unfold descriptionOf
    rw [hb]
  · intro i hi
    have hz : zoneDate doc = some i := by
      unfold zoneDate
      simp only [hb, hi]
    simp [hz]

/-- Witness for C3 (amended), on a single-body-block page whose block text
carries a parseable date. -/
theorem claim3_witness :
    ({ title := "Feria".toList
       description := cleanDescription "Feria gastronómica el 06/08/2025 con torta frita".toList
       event_date := some ⟨2025, 8, 6⟩
       formatted_date := some "06/08/2025".toList
       image_url := none
       link := "u".toList : EventRecord }).description =
      cleanDescription
        (textStrip (.elem "div" ["field--name-body"] []
          (.cons (.text "Feria gastronómica el 06/08/2025 con torta frita".toList) .nil))) ∧
    ({ title := "Feria".toList
       description := cleanDescription "Feria gastronómica el 06/08/2025 con torta frita".toList
       event_date := some ⟨2025, 8, 6⟩
       formatted_date := some "06/08/2025".toList
       image_url := none
       link := "u".toList : EventRecord }).event_date = some (⟨2025, 8, 6⟩ : Date) :=
  ⟨(claim3_first_body_block_amended
      (.elem "html" [] []
        (.cons (.elem "h1" [] [] (.cons (.text "Feria".toList) .nil))
          (.cons (.elem "div" ["field--name-body"] []
            (.cons (.text "Feria gastronómica el 06/08/2025 con torta frita".toList) .nil))
            .nil)))
      "u".toList _
      (.elem "div" ["field--name-body"] []
        (.cons (.text "Feria gastronómica el 06/08/2025 con torta frita".toList) .nil))
      [] (by decide) (by decide)).1,
    ((claim3_first_body_block_amended
      (.elem "html" [] []
        (.cons (.elem "h1" [] [] (.cons (.text "Feria".toList) .nil))
          (.cons (.elem "div" ["field--name-body"] []
            (.cons (.text "Feria gastronómica el 06/08/2025 con torta frita".toList) .nil))
            .nil)))
      "u".toList _
      (.elem "div" ["field--name-body"] []
        (.cons (.text "Feria gastronómica el 06/08/2025 con torta frita".toList) .nil))
      [] (by decide) (by decide)).2
      ⟨⟨2025, 8, 6⟩, "06/08/2025".toList⟩ (by decide)).1⟩

/-! ## Lemmas about link discovery (C7) -/

theorem dedupAux_congr :
    ∀ (l : List Str) (s1 s2 : List Str), (∀ x, x ∈ s1 ↔ x ∈ s2) →
      dedupAux s1 l = dedupAux s2 l := by
  intro l
  induction l with
  | nil => intro s1 s2 _; rfl
  | cons x xs ih =>
      intro s1 s2 hmem
      simp only [dedupAux]
      by_cases hx : x ∈ s1
      · rw [if_pos hx, if_pos ((hmem x).1 hx)]
        exact ih s1 s2 hmem
      · rw [if_neg hx, if_neg (fun h => hx ((hmem x).2 h))]
        refine congrArg (x :: ·) (ih _ _ ?_)
        intro y
        simp only [List.mem_cons]
        exact or_congr Iff.rfl (hmem y)

theorem scan_fold :
    ∀ (hs : List Str) (acc : List Str), eventsUrl ∉ acc →
      hs.foldl scanStep acc =
        acc ++ dedupAux acc
          (((hs.filter keepHref).map (urljoinM baseUrl)).filter
            (fun u => u ≠ eventsUrl)) := by
  intro hs
  induction hs with
  | nil => intro acc _; simp [dedupAux]
  | cons h hs ih =>
      intro acc hacc
      rw [List.foldl_cons]
      by_cases kh : keepHref h
      case neg =>
        have hstep : scanStep acc h = acc := by
          unfold scanStep
          rw [if_neg kh]
        rw [hstep, List.filter_cons_of_neg (by simpa using kh)]
        exact ih acc hacc
      · have hstep : scanStep acc h =
            (if urljoinM baseUrl h ∉ acc ∧ urljoinM baseUrl h ≠ eventsUrl then
              acc ++ [urljoinM baseUrl h] else acc) := by
          unfold scanStep
          rw [if_pos kh]
        rw [List.filter_cons_of_pos kh, List.map_cons]
        by_cases hu : urljoinM baseUrl h = eventsUrl
        · rw [List.filter_cons_of_neg (by simpa using hu)]
          rw [hstep, if_neg (by intro hand; exact hand.2 hu)]
          exact ih acc hacc
        · rw [List.filter_cons_of_pos (by simpa using hu)]
          by_cases hin : urljoinM baseUrl h ∈ acc
          · rw [hstep, if_neg (by intro hand; exact hand.1 hin)]
            rw [ih acc hacc]
            simp only [dedupAux]
            rw [if_pos hin]
          · rw [hstep, if_pos ⟨hin, hu⟩]
            have hacc2 : eventsUrl ∉ acc ++ [urljoinM baseUrl h] := by
              intro hmem
              rcases List.mem_append.1 hmem with hmem | hmem
              · exact hacc hmem
              · exact hu (List.mem_singleton.1 hmem).symm
            rw [ih (acc ++ [urljoinM baseUrl h]) hacc2]
            simp only [dedupAux]
            rw [if_neg hin, List.append_assoc]
            refine congrArg (acc ++ ·) ?_
            show [urljoinM baseUrl h] ++ _ = _
            refine congrArg ([urljoinM baseUrl h] ++ ·) ?_
            refine dedupAux_congr _ _ _ ?_
            intro y
            simp only [List.mem_append, List.mem_singleton, List.mem_cons,
              List.not_mem_nil, or_false]
            exact Or.comm

/-- C7: on a listing page with no `article` blocks and no `evento`-classed
divs, link discovery is exactly the fallback scan: the keyword-bearing
hrefs, made absolute, in first-occurrence order with duplicates removed and
the listing URL itself excluded. -/
theorem claim7_fallback_scan (doc : Node)
    (hart : collectPred isArticle doc = [])
    (hdiv : collectPred isDivEvento doc = []) :
    discoverEventLinks doc =
      dedupKeepFirst
        ((((pageHrefs doc).filter keepHref).map (urljoinM baseUrl)).filter
          (fun u => u ≠ eventsUrl)) := by
  have hblocks : articleBlocks doc = [] := by
    unfold articleBlocks
    simp only [hart, hdiv]
  have hlinks : articleLinks doc = [] := by
    unfold articleLinks
    rw [hblocks]
    rfl
  unfold discoverEventLinks
  simp only [hlinks]
  show fallbackScan doc = _
  unfold fallbackScan dedupKeepFirst
  exact scan_fold (pageHrefs doc) [] (by simp)

/-- Witness for C7: a listing page with no article blocks whose links are a
duplicated `/evento/1`, the listing URL itself, `/node/5`, and an unrelated
`/otra`; discovery returns the two keyword links, absolute, deduplicated,
in first-occurrence order. -/
theorem claim7_witness :
    discoverEventLinks
        (.elem "html" [] []
          (.cons (.elem "a" [] [("href", "/evento/1".toList)] .nil)
            (.cons (.elem "a" [] [("href", "/evento/1".toList)] .nil)
              (.cons (.elem "a" [] [("href", "https://www.salto.gub.uy/eventos".toList)] .nil)
                (.cons (.elem "a" [] [("href", "/node/5".toList)] .nil)
                  (.cons (.elem "a" [] [("href", "/otra".toList)] .nil) .nil)))))) =
      dedupKeepFirst
        ((((pageHrefs
            (.elem "html" [] []
              (.cons (.elem "a" [] [("href", "/evento/1".toList)] .nil)
                (.cons (.elem "a" [] [("href", "/evento/1".toList)] .nil)
                  (.cons (.elem "a" [] [("href", "https://www.salto.gub.uy/eventos".toList)] .nil)
                    (.cons (.elem "a" [] [("href", "/node/5".toList)] .nil)
                      (.cons (.elem "a" [] [("href", "/otra".toList)] .nil) .nil))))))).filter
              keepHref).map (urljoinM baseUrl)).filter (fun u => u ≠ eventsUrl)) ∧
    discoverEventLinks
        (.elem "html" [] []
          (.cons (.elem "a" [] [("href", "/evento/1".toList)] .nil)
            (.cons (.elem "a" [] [("href", "/evento/1".toList)] .nil)
              (.cons (.elem "a" [] [("href", "https://www.salto.gub.uy/eventos".toList)] .nil)
                (.cons (.elem "a" [] [("href", "/node/5".toList)] .nil)
                  (.cons (.elem "a" [] [("href", "/otra".toList)] .nil) .nil)))))) =
      ["https://www.salto.gub.uy/evento/1".toList,
       "https://www.salto.gub.uy/node/5".toList] :=
  ⟨claim7_fallback_scan _ (by decide) (by decide), by decide⟩

/-! ## Lemmas about stripping -/

/-- Last character is whitespace (`[]` counts as no). -/
def lastSp (s : Str) : Bool :=
  match lastChar s with
  | some c => pyIsSpace c
  | none => false

theorem stripR_cons (c : Char) (rest : Str) :
    stripR (c :: rest) =
      match stripR rest with
      | [] => if pyIsSpace c then [] else [c]
      | r => c :: r := rfl

theorem lastChar_cons_of_ne {z : Str} (c : Char) (hz : z ≠ []) :
    lastChar (c :: z) = lastChar z := by
  cases z with
  | nil => exact absurd rfl hz
  | cons d rest => rfl

theorem headSp_stripL (s : Str) : headSp (stripL s) = false := by
  induction s with
  | nil => rfl
  | cons c rest ih =>
      show headSp (List.dropWhile pyIsSpace (c :: rest)) = false
      rw [List.dropWhile_cons]
      by_cases hc : pyIsSpace c = true
      · rw [if_pos hc]; exact ih
      · rw [if_neg hc]
        exact Bool.eq_false_iff.mpr hc

theorem headSp_stripR (s : Str) :
    stripR s = [] ∨ headSp (stripR s) = headSp s := by
  cases s with
  | nil => exact Or.inl rfl
  | cons c rest =>
      simp only [stripR]
      cases hr : stripR rest with
      | nil =>
          by_cases hc : pyIsSpace c = true
          · rw [if_pos hc]; exact Or.inl rfl
          · rw [if_neg hc]; exact Or.inr rfl
      | cons r rs => exact Or.inr rfl

theorem stripR_idem (s : Str) : stripR (stripR s) = stripR s := by
  induction s with
  | nil => rfl
  | cons c rest ih =>
      simp only [stripR]
      cases hr : stripR rest with
      | nil =>
          by_cases hc : pyIsSpace c = true
          · rw [if_pos hc]; rfl
          · rw [if_neg hc]
            show stripR [c] = [c]
            simp only [stripR]
            rw [if_neg hc]
      | cons r rs =>
          have h2 : stripR (r :: rs) = r :: rs := by rw [← hr, ih]
          rw [stripR_cons, h2]

theorem stripL_of_headSp_false {s : Str} (h : headSp s = false) : stripL s = s := by
  cases s with
  | nil => rfl
  | cons c rest =>
      show List.dropWhile pyIsSpace (c :: rest) = c :: rest
      rw [List.dropWhile_cons, if_neg (by simp [show pyIsSpace c = false from h])]

theorem headSp_pstrip (s : Str) : headSp (pstrip s) = false := by
  unfold pstrip
  rcases headSp_stripR (stripL s) with h | h
  · rw [h]; rfl
  · rw [h]; exact headSp_stripL s

theorem pstrip_idem (s : Str) : pstrip (pstrip s) = pstrip s := by
  have hp : headSp (stripR (stripL s)) = false := headSp_pstrip s
  show stripR (stripL (stripR (stripL s))) = stripR (stripL s)
  rw [stripL_of_headSp_false hp, stripR_idem]

theorem lastChar_cons_cons (c d : Char) (rest : Str) :
    lastChar (c :: d :: rest) = lastChar (d :: rest) := rfl

theorem lastChar_append (x : Str) {y : Str} (hy : y ≠ []) :
    lastChar (x ++ y) = lastChar y := by
  induction x with
  | nil => rfl
  | cons c x ih =>
      rw [List.cons_append,
        lastChar_cons_of_ne c (fun h => hy (List.append_eq_nil.1 h).2)]
      exact ih

theorem lastChar_mem : ∀ (s : Str) (c : Char), lastChar s = some c → c ∈ s := by
  intro s
  induction s with
  | nil => intro c h; cases h
  | cons a rest ih =>
      intro c h
      cases rest with
      | nil =>
          cases h
          simp
      | cons b rs =>
          rw [lastChar_cons_cons] at h
          exact List.mem_cons_of_mem a (ih c h)

theorem lastSp_append_single (x : Str) (d : Char) :
    lastSp (x ++ [d]) = pyIsSpace d := by
  unfold lastSp
  rw [lastChar_append x (by simp)]
  rfl

theorem lastSp_stripR (s : Str) : lastSp (stripR s) = false := by
  induction s with
  | nil => rfl
  | cons c rest ih =>
      simp only [stripR]
      cases hr : stripR rest with
      | nil =>
          by_cases hc : pyIsSpace c = true
          · rw [if_pos hc]; rfl
          · rw [if_neg hc]
            show pyIsSpace c = false
            exact Bool.eq_false_iff.mpr hc
      | cons r rs =>
          show lastSp (c :: r :: rs) = false
          have h2 : lastSp (c :: r :: rs) = lastSp (r :: rs) := by
            unfold lastSp
            rw [lastChar_cons_cons]
          rw [h2, ← hr]
          exact ih

theorem stripR_of_lastSp_false : ∀ s : Str, lastSp s = false → stripR s = s := by
  intro s
  induction s with
  | nil => intro _; rfl
  | cons c rest ih =>
      intro h
      cases rest with
      | nil =>
          have hc : pyIsSpace c = false := h
          simp [stripR, hc]
      | cons b rs =>
          have h2 : lastSp (b :: rs) = false := h
          have h3 : stripR (b :: rs) = b :: rs := ih h2
          rw [stripR_cons, h3]

theorem pstrip_noop {s : Str} (h1 : headSp s = false) (h2 : lastSp s = false) :
    pstrip s = s := by
  unfold pstrip
  rw [stripL_of_headSp_false h1, stripR_of_lastSp_false s h2]

theorem lastSp_pstrip (s : Str) : lastSp (pstrip s) = false := lastSp_stripR (stripL s)

theorem pstrip_cons_space {c : Char} (hc : pyIsSpace c = true) (s : Str) :
    pstrip (c :: s) = pstrip s := by
  show stripR (List.dropWhile pyIsSpace (c :: s)) = _
  rw [List.dropWhile_cons, if_pos hc]
  rfl

theorem mem_stripR : ∀ (s : Str) (a : Char), a ∈ stripR s → a ∈ s := by
  intro s
  induction s with
  | nil => intro a h; exact absurd h (List.not_mem_nil a)
  | cons c rest ih =>
      intro a h
      simp only [stripR] at h
      cases hr : stripR rest with
      | nil =>
          rw [hr] at h
          by_cases hc : pyIsSpace c = true
          · rw [if_pos hc] at h; exact absurd h (List.not_mem_nil a)
          · rw [if_neg hc] at h
            rcases List.mem_singleton.1 h with rfl
            exact List.mem_cons_self a rest
      | cons r rs =>
          rw [hr] at h
          rcases List.mem_cons.1 h with rfl | h2
          · exact List.mem_cons_self a rest
          · exact List.mem_cons_of_mem c (ih a (hr ▸ h2))

theorem mem_stripL : ∀ (s : Str) (a : Char), a ∈ stripL s → a ∈ s := by
  intro s
  induction s with
  | nil => intro a h; exact h
  | cons c rest ih =>
      intro a h
      show a ∈ c :: rest
      rw [show stripL (c :: rest) = List.dropWhile pyIsSpace (c :: rest) from rfl,
        List.dropWhile_cons] at h
      by_cases hc : pyIsSpace c = true
      · rw [if_pos hc] at h
        exact List.mem_cons_of_mem c (ih a h)
      · rw [if_neg hc] at h
        exact h

theorem mem_pstrip {s : Str} {a : Char} (h : a ∈ pstrip s) : a ∈ s :=
  mem_stripL s a (mem_stripR (stripL s) a h)

/-! ## Lemmas about whitespace collapsing -/

/-- A string is collapsed when every whitespace character in it is a plain
`' '` and no two whitespace characters are adjacent — exactly the invariant
`re.sub(r'\s+', ' ', s)` establishes. -/
def collapsedOK : Str → Bool
  | [] => true
  | c :: rest =>
      (!(pyIsSpace c) || (decide (c = ' ') && !(headSp rest))) && collapsedOK rest

theorem collapsedOK_cons_iff (c : Char) (rest : Str) :
    collapsedOK (c :: rest) = true ↔
      (pyIsSpace c = false ∨ (c = ' ' ∧ headSp rest = false)) ∧
        collapsedOK rest = true := by
  simp [collapsedOK, Bool.and_eq_true, Bool.or_eq_true, Bool.not_eq_true']

theorem headSp_collapseAux_true : ∀ s : Str, headSp (collapseAux true s) = false := by
  intro s
  induction s with
  | nil => rfl
  | cons c rest ih =>
      simp only [collapseAux]
      by_cases hc : pyIsSpace c = true
      · rw [if_pos hc]
        simpa using ih
      · rw [if_neg hc]
        exact Bool.eq_false_iff.mpr hc

theorem collapsedOK_collapseAux : ∀ (s : Str) (pv : Bool),
    collapsedOK (collapseAux pv s) = true := by
  intro s
  induction s with
  | nil => intro pv; rfl
  | cons c rest ih =>
      intro pv
      simp only [collapseAux]
      by_cases hc : pyIsSpace c = true
      · rw [if_pos hc]
        cases pv with
        | true => simpa using ih true
        | false =>
            rw [if_neg (by simp)]
            refine (collapsedOK_cons_iff ' ' _).2 ⟨Or.inr ⟨rfl, ?_⟩, ih true⟩
            exact headSp_collapseAux_true rest
      · rw [if_neg hc]
        exact (collapsedOK_cons_iff c _).2
          ⟨Or.inl (Bool.eq_false_iff.mpr hc), ih false⟩

theorem collapseAux_fix : ∀ s : Str, collapsedOK s = true →
    collapseAux false s = s ∧ (headSp s = false → collapseAux true s = s) := by
  intro s
  induction s with
  | nil => intro _; exact ⟨rfl, fun _ => rfl⟩
  | cons c rest ih =>
      intro h
      obtain ⟨hcond, hrest⟩ := (collapsedOK_cons_iff c rest).1 h
      obtain ⟨ihf, iht⟩ := ih hrest
      rcases hcond with hc | ⟨hc, hhd⟩
      · have hcn : ¬ pyIsSpace c = true := by simp [hc]
        constructor
        · simp only [collapseAux]
          rw [if_neg hcn, ihf]
        · intro _
          simp only [collapseAux]
          rw [if_neg hcn, ihf]
      · subst hc
        constructor
        · simp only [collapseAux]
          rw [if_pos (by decide), if_neg (by simp), iht hhd]
        · intro h2
          exact absurd h2 (by simp [headSp, pyIsSpace])

theorem collapsedOK_tail {c : Char} {rest : Str}
    (h : collapsedOK (c :: rest) = true) : collapsedOK rest = true :=
  ((collapsedOK_cons_iff c rest).1 h).2

theorem collapsedOK_stripL {s : Str} (h : collapsedOK s = true) :
    collapsedOK (stripL s) = true := by
  induction s with
  | nil => exact h
  | cons c rest ih =>
      show collapsedOK (List.dropWhile pyIsSpace (c :: rest)) = true
      rw [List.dropWhile_cons]
      by_cases hc : pyIsSpace c = true
      · rw [if_pos hc]
        exact ih (collapsedOK_tail h)
      · rw [if_neg hc]
        exact h

theorem collapsedOK_stripR {s : Str} (h : collapsedOK s = true) :
    collapsedOK (stripR s) = true := by
  induction s with
  | nil => exact h
  | cons c rest ih =>
      obtain ⟨hcond, hrest⟩ := (collapsedOK_cons_iff c rest).1 h
      simp only [stripR]
      cases hr : stripR rest with
      | nil =>
          by_cases hc : pyIsSpace c = true
          · rw [if_pos hc]; rfl
          · rw [if_neg hc]
            exact (collapsedOK_cons_iff c []).2
              ⟨Or.inl (Bool.eq_false_iff.mpr hc), rfl⟩
      | cons r rs =>
          refine (collapsedOK_cons_iff c (r :: rs)).2 ⟨?_, hr ▸ ih hrest⟩
          rcases hcond with hc | ⟨hc, hhd⟩
          · exact Or.inl hc
          · refine Or.inr ⟨hc, ?_⟩
            rcases headSp_stripR rest with h2 | h2
            · rw [h2] at hr; cases hr
            · rw [hr] at h2
              rw [h2, hhd]

theorem collapsedOK_append {x y : Str} (hx : collapsedOK x = true)
    (hy : collapsedOK y = true) (hhy : headSp y = false) :
    collapsedOK (x ++ y) = true := by
  induction x with
  | nil => exact hy
  | cons c xr ih =>
      obtain ⟨hcond, hxr⟩ := (collapsedOK_cons_iff c xr).1 hx
      rw [List.cons_append]
      refine (collapsedOK_cons_iff c (xr ++ y)).2 ⟨?_, ih hxr⟩
      rcases hcond with hc | ⟨hc, hhd⟩
      · exact Or.inl hc
      · refine Or.inr ⟨hc, ?_⟩
        cases xr with
        | nil => exact hhy
        | cons d dr => exact hhd

theorem collapsedOK_of_append_left {x y : Str}
    (h : collapsedOK (x ++ y) = true) : collapsedOK x = true := by
  induction x with
  | nil => rfl
  | cons c xr ih =>
      rw [List.cons_append] at h
      obtain ⟨hcond, hrest⟩ := (collapsedOK_cons_iff c (xr ++ y)).1 h
      refine (collapsedOK_cons_iff c xr).2 ⟨?_, ih hrest⟩
      rcases hcond with hc | ⟨hc, hhd⟩
      · exact Or.inl hc
      · refine Or.inr ⟨hc, ?_⟩
        cases xr with
        | nil => rfl
        | cons d dr => exact hhd

theorem collapsedOK_of_append_right {x y : Str}
    (h : collapsedOK (x ++ y) = true) : collapsedOK y = true := by
  induction x with
  | nil => exact h
  | cons c xr ih =>
      rw [List.cons_append] at h
      exact ih (collapsedOK_tail h)

/-! ## Lemmas about `normWS` -/

theorem collapsedOK_normWS (s : Str) : collapsedOK (normWS s) = true :=
  collapsedOK_stripR (collapsedOK_stripL (collapsedOK_collapseAux s false))

theorem headSp_normWS (s : Str) : headSp (normWS s) = false :=
  headSp_pstrip (collapseRuns s)

theorem lastSp_normWS (s : Str) : lastSp (normWS s) = false :=
  lastSp_pstrip (collapseRuns s)

theorem normWS_noop {s : Str} (h1 : collapsedOK s = true) (h2 : headSp s = false)
    (h3 : lastSp s = false) : normWS s = s := by
  unfold normWS collapseRuns
  rw [(collapseAux_fix s h1).1]
  exact pstrip_noop h2 h3

theorem normWS_idem (s : Str) : normWS (normWS s) = normWS s :=
  normWS_noop (collapsedOK_normWS s) (headSp_normWS s) (lastSp_normWS s)

/-! ## Lemmas about phrase removal -/

theorem repAux_no_occurs : ∀ (n : Nat) (pat s : Str),
    occursIn pat s = false → repAux n pat s = s := by
  intro n
  induction n with
  | zero => intro pat s _; rfl
  | succ n ih =>
      intro pat s h
      cases s with
      | nil => rfl
      | cons c rest =>
          simp only [occursIn, Bool.or_eq_false_iff] at h
          obtain ⟨h1, h2⟩ := h
          simp only [repAux]
          rw [if_neg (fun hand => (Bool.eq_false_iff.mp h1) hand.2)]
          rw [ih pat rest h2]

theorem replaceAll_no_occurs {pat s : Str} (h : occursIn pat s = false) :
    replaceAll pat s = s :=
  repAux_no_occurs s.length pat s h

theorem removePhrases_noop_gen :
    ∀ (ps : List Str) (c : Str), (∀ p ∈ ps, occursIn p c = false) →
      pstrip c = c →
      List.foldl (fun acc p => pstrip (replaceAll p acc)) c ps = c := by
  intro ps
  induction ps with
  | nil => intro c _ _; rfl
  | cons p ps ih =>
      intro c h hs
      rw [List.foldl_cons, replaceAll_no_occurs (h p (List.mem_cons_self p ps)), hs]
      exact ih c (fun q hq => h q (List.mem_cons_of_mem p hq)) hs

theorem removePhrases_noop {c : Str}
    (h : ∀ p ∈ unwantedPhrases, occursIn p c = false) (hs : pstrip c = c) :
    removePhrases c = c :=
  removePhrases_noop_gen unwantedPhrases c h hs

/-! ## Lemmas about splitting on periods and rejoining -/

theorem splitDot_ne_nil : ∀ s : Str, splitDot s ≠ [] := by
  intro s
  cases s with
  | nil => simp [splitDot]
  | cons c rest =>
      simp only [splitDot]
      by_cases hc : c = '.'
      · rw [if_pos hc]; simp
      · rw [if_neg hc]
        cases h : splitDot rest with
        | nil => simp
        | cons p ps => simp

theorem splitDot_first_piece : ∀ (s q : Str) (qs : List Str),
    splitDot s = q :: qs → ∃ b, s = q ++ b := by
  intro s
  induction s with
  | nil =>
      intro q qs h
      cases h
      exact ⟨[], rfl⟩
  | cons c rest ih =>
      intro q qs h
      simp only [splitDot] at h
      by_cases hc : c = '.'
      · rw [if_pos hc] at h
        cases h
        exact ⟨c :: rest, rfl⟩
      · rw [if_neg hc] at h
        cases hr : splitDot rest with
        | nil => exact absurd hr (splitDot_ne_nil rest)
        | cons p ps =>
            rw [hr] at h
            have h2 : (c :: p) :: ps = q :: qs := h
            injection h2 with hq hqs
            obtain ⟨b, hb⟩ := ih p ps hr
            exact ⟨b, by rw [← hq, List.cons_append, ← hb]⟩

theorem splitDot_mem : ∀ (s p : Str), p ∈ splitDot s →
    ('.' ∈ p → False) ∧ ∃ a b, s = a ++ p ++ b := by
  intro s
  induction s with
  | nil =>
      intro p hp
      rcases List.mem_singleton.1 hp with rfl
      exact ⟨fun h => absurd h (List.not_mem_nil _), [], [], rfl⟩
  | cons c rest ih =>
      intro p hp
      simp only [splitDot] at hp
      by_cases hc : c = '.'
      · rw [if_pos hc] at hp
        rcases List.mem_cons.1 hp with rfl | hp2
        · exact ⟨fun h => absurd h (List.not_mem_nil _), [], c :: rest, rfl⟩
        · obtain ⟨hdot, a, b, hab⟩ := ih p hp2
          exact ⟨hdot, c :: a, b, by simp [hab]⟩
      · rw [if_neg hc] at hp
        cases hr : splitDot rest with
        | nil => exact absurd hr (splitDot_ne_nil rest)
        | cons q qs =>
            rw [hr] at hp
            rcases List.mem_cons.1 hp with rfl | hp2
            · obtain ⟨hdot, -⟩ := ih q (by rw [hr]; exact List.mem_cons_self q qs)
              obtain ⟨b, hb⟩ := splitDot_first_piece rest q qs hr
              refine ⟨?_, [], b, by simp [hb]⟩
              intro hmem
              rcases List.mem_cons.1 hmem with heq | hmem2
              · exact hc heq.symm
              · exact hdot hmem2
            · obtain ⟨hdot, a, b, hab⟩ :=
                ih p (by rw [hr]; exact List.mem_cons_of_mem q hp2)
              exact ⟨hdot, c :: a, b, by simp [hab]⟩

theorem splitDot_append_dot : ∀ (x y : Str), ('.' ∈ x → False) →
    splitDot (x ++ '.' :: y) = x :: splitDot y := by
  intro x
  induction x with
  | nil =>
      intro y _
      show splitDot ('.' :: y) = [] :: splitDot y
      simp [splitDot]
  | cons c xr ih =>
      intro y hdot
      have hc : ¬ c = '.' := fun h => hdot (h ▸ List.mem_cons_self c xr)
      show splitDot (c :: (xr ++ '.' :: y)) = (c :: xr) :: splitDot y
      simp only [splitDot]
      rw [if_neg hc, ih y (fun h => hdot (List.mem_cons_of_mem c h))]

theorem splitDot_no_dot : ∀ x : Str, ('.' ∈ x → False) → splitDot x = [x] := by
  intro x
  induction x with
  | nil => intro _; rfl
  | cons c xr ih =>
      intro hdot
      have hc : ¬ c = '.' := fun h => hdot (h ▸ List.mem_cons_self c xr)
      simp only [splitDot]
      rw [if_neg hc, ih (fun h => hdot (List.mem_cons_of_mem c h))]

/-- The shape of `splitDot (joinDotSpace k ++ ['.'])`: the first part, then
the later parts each prefixed by the joining space, then the empty piece
after the final period. -/
def spacedParts : List Str → List Str
  | [] => []
  | l :: ls => l :: ls.map (fun x => ' ' :: x)

theorem splitDot_join : ∀ k : List Str, k ≠ [] →
    (∀ l ∈ k, ('.' ∈ l → False)) →
    splitDot (joinDotSpace k ++ ['.']) = spacedParts k ++ [[]] := by
  intro k
  induction k with
  | nil => intro h _; exact absurd rfl h
  | cons l ls ih =>
      intro _ hdot
      cases ls with
      | nil =>
          show splitDot (l ++ '.' :: []) = [l, []]
          rw [splitDot_append_dot l [] (hdot l (List.mem_cons_self l []))]
          rfl
      | cons l2 ls2 =>
          have h1 : joinDotSpace (l :: l2 :: ls2) ++ ['.'] =
              l ++ '.' :: (' ' :: (joinDotSpace (l2 :: ls2) ++ ['.'])) := by
            show (l ++ '.' :: ' ' :: joinDotSpace (l2 :: ls2)) ++ ['.'] = _
            rw [List.append_assoc]
            rfl
          rw [h1, splitDot_append_dot l _ (hdot l (List.mem_cons_self l _))]
          have h2 := ih (by simp)
            (fun x hx => hdot x (List.mem_cons_of_mem l hx))
          show l :: splitDot (' ' :: (joinDotSpace (l2 :: ls2) ++ ['.'])) = _
          simp only [splitDot]
          rw [if_neg (by decide), h2]
          rfl

theorem map_pstrip_spaced (k : List Str) (h : ∀ l ∈ k, pstrip l = l) :
    (spacedParts k).map pstrip = k := by
  cases k with
  | nil => rfl
  | cons l ls =>
      simp only [spacedParts, List.map_cons]
      rw [h l (List.mem_cons_self l ls), List.map_map]
      refine congrArg (l :: ·) ?_
      have hpt : ∀ x ∈ ls, (pstrip ∘ (fun v => ' ' :: v)) x = id x := by
        intro x hx
        show pstrip (' ' :: x) = x
        rw [pstrip_cons_space (by decide)]
        exact h x (List.mem_cons_of_mem l hx)
      rw [List.map_congr_left hpt, List.map_id]

theorem headSp_append_of_ne {x : Str} (y : Str) (hx : x ≠ []) :
    headSp (x ++ y) = headSp x := by
  cases x with
  | nil => exact absurd rfl hx
  | cons c rest => rfl

theorem joinDotSpace_ne_nil {l : Str} (ls : List Str) (hl : l ≠ []) :
    joinDotSpace (l :: ls) ≠ [] := by
  cases ls with
  | nil => exact hl
  | cons l2 ls2 =>
      show l ++ '.' :: ' ' :: joinDotSpace (l2 :: ls2) ≠ []
      cases l with
      | nil => exact absurd rfl hl
      | cons c rest => simp

theorem joinDotSpace_props : ∀ k : List Str, k ≠ [] →
    (∀ l ∈ k, l ≠ [] ∧ headSp l = false ∧ collapsedOK l = true) →
    collapsedOK (joinDotSpace k) = true ∧ headSp (joinDotSpace k) = false := by
  intro k
  induction k with
  | nil => intro h _; exact absurd rfl h
  | cons l ls ih =>
      intro _ hl
      obtain ⟨hlne, hlhd, hlok⟩ := hl l (List.mem_cons_self l ls)
      cases ls with
      | nil => exact ⟨hlok, hlhd⟩
      | cons l2 ls2 =>
          obtain ⟨ihok, ihhd⟩ := ih (by simp)
            (fun x hx => hl x (List.mem_cons_of_mem l hx))
          constructor
          · show collapsedOK (l ++ '.' :: ' ' :: joinDotSpace (l2 :: ls2)) = true
            refine collapsedOK_append hlok ?_ rfl
            refine (collapsedOK_cons_iff '.' _).2 ⟨Or.inl (by decide), ?_⟩
            refine (collapsedOK_cons_iff ' ' _).2 ⟨Or.inr ⟨rfl, ihhd⟩, ihok⟩
          · show headSp (l ++ '.' :: ' ' :: joinDotSpace (l2 :: ls2)) = false
            rw [headSp_append_of_ne _ hlne]
            exact hlhd

theorem lastChar_join_ne_dot : ∀ k : List Str, k ≠ [] →
    (∀ l ∈ k, l ≠ [] ∧ ('.' ∈ l → False)) →
    ¬ lastChar (joinDotSpace k) = some '.' := by
  intro k
  induction k with
  | nil => intro h _; exact absurd rfl h
  | cons l ls ih =>
      intro _ hl
      obtain ⟨hlne, hldot⟩ := hl l (List.mem_cons_self l ls)
      cases ls with
      | nil =>
          intro h
          exact hldot (lastChar_mem l '.' h)
      | cons l2 ls2 =>
          intro h
          have hJne : joinDotSpace (l2 :: ls2) ≠ [] :=
            joinDotSpace_ne_nil ls2 (hl l2 (by simp)).1
          rw [show joinDotSpace (l :: l2 :: ls2) =
                l ++ '.' :: ' ' :: joinDotSpace (l2 :: ls2) from rfl,
            lastChar_append l (by simp), lastChar_cons_cons,
            lastChar_cons_of_ne ' ' hJne] at h
          exact ih (by simp) (fun x hx => hl x (List.mem_cons_of_mem l hx)) h

/-! ## Fixpoint lemmas for the sanitizer -/

theorem keepLine_ne_nil {l : Str} (h : keepLine l = true) : l ≠ [] := by
  intro h0
  subst h0
  exact absurd h (by decide)

/-- Every surviving sentence of `keptLines` is a kept, stripped, collapsed,
period-free line. -/
theorem keptLines_mem_props {s x : Str} (hx : x ∈ keptLines s) :
    keepLine x = true ∧ pstrip x = x ∧ collapsedOK x = true ∧
      ('.' ∈ x → False) := by
  unfold keptLines at hx
  obtain ⟨hxc, hxk⟩ := List.mem_filter.1 hx
  unfold candidateLines at hxc
  obtain ⟨y, hy, rfl⟩ := List.mem_map.1 hxc
  obtain ⟨hydot, a, b, hab⟩ := splitDot_mem (collapsedText s) y hy
  have hokct : collapsedOK (collapsedText s) = true :=
    collapsedOK_normWS (removePhrases s)
  have h1 : collapsedOK ((a ++ y) ++ b) = true := by
    rw [show (a ++ y) ++ b = a ++ y ++ b from rfl, ← hab]
    exact hokct
  have hoky : collapsedOK y = true :=
    collapsedOK_of_append_right (collapsedOK_of_append_left h1)
  refine ⟨hxk, pstrip_idem y, ?_, ?_⟩
  · exact collapsedOK_stripR (collapsedOK_stripL hoky)
  · intro hdot
    exact hydot (mem_pstrip hdot)

/-- When the filter rejects every candidate sentence, phase 4 keeps the
phase-2 text, so `cleanCore` collapses to `collapsedText`. -/
theorem cleanCore_of_no_kept {s : Str} (hk : keptLines s = []) :
    cleanCore s = collapsedText s := by
  have hrej : rejoined s = collapsedText s := by
    unfold rejoined
    simp only [hk]
  unfold cleanCore
  rw [hrej]
  exact normWS_noop (collapsedOK_normWS (removePhrases s))
    (headSp_normWS (removePhrases s)) (lastSp_normWS (removePhrases s))

/-- A sanitizer output that is collapsed, stripped, free of boilerplate
phrases, and whose candidate sentences are all rejected, is a fixpoint of
the sanitizer core. -/
theorem cleanCore_fix_of_rejected {t : Str}
    (hok : collapsedOK t = true) (hh : headSp t = false) (hl : lastSp t = false)
    (hph : ∀ p ∈ unwantedPhrases, occursIn p t = false)
    (hrej : ((splitDot t).map pstrip).filter keepLine = []) :
    cleanCore t = t := by
  have hstrip : pstrip t = t := pstrip_noop hh hl
  have hrp : removePhrases t = t := removePhrases_noop hph hstrip
  have hct : collapsedText t = t := by
    unfold collapsedText
    rw [hrp]
    exact normWS_noop hok hh hl
  have hkept : keptLines t = [] := by
    unfold keptLines candidateLines
    rw [hct]
    exact hrej
  rw [cleanCore_of_no_kept hkept]
  exact hct

theorem join_dot_props (l0 : Str) (ls : List Str)
    (h : ∀ l ∈ l0 :: ls, keepLine l = true ∧ pstrip l = l ∧
      collapsedOK l = true ∧ ('.' ∈ l → False)) :
    collapsedOK (joinDotSpace (l0 :: ls) ++ ['.']) = true ∧
    headSp (joinDotSpace (l0 :: ls) ++ ['.']) = false ∧
    lastSp (joinDotSpace (l0 :: ls) ++ ['.']) = false := by
  have hprops : ∀ l ∈ l0 :: ls, l ≠ [] ∧ headSp l = false ∧ collapsedOK l = true := by
    intro l hl
    obtain ⟨hkl, hstr, hok, -⟩ := h l hl
    refine ⟨keepLine_ne_nil hkl, ?_, hok⟩
    rw [← hstr]
    exact headSp_pstrip l
  obtain ⟨hjok, hjhd⟩ := joinDotSpace_props (l0 :: ls) (by simp) hprops
  have hjne : joinDotSpace (l0 :: ls) ≠ [] :=
    joinDotSpace_ne_nil ls (hprops l0 (List.mem_cons_self l0 ls)).1
  refine ⟨?_, ?_, ?_⟩
  · exact collapsedOK_append hjok (by decide) rfl
  · rw [headSp_append_of_ne _ hjne]
    exact hjhd
  · rw [lastSp_append_single]
    rfl

/-- A sanitizer output of the rejoin shape — surviving sentences joined by
`'. '` with a final period — is a fixpoint of the sanitizer core, provided
no boilerplate phrase occurs in it. -/
theorem cleanCore_fix_of_kept (l0 : Str) (ls : List Str) {t : Str}
    (h : ∀ l ∈ l0 :: ls, keepLine l = true ∧ pstrip l = l ∧
      collapsedOK l = true ∧ ('.' ∈ l → False))
    (ht : t = joinDotSpace (l0 :: ls) ++ ['.'])
    (hph : ∀ p ∈ unwantedPhrases, occursIn p t = false) :
    cleanCore t = t := by
  obtain ⟨hTok, hThd, hTls⟩ := join_dot_props l0 ls h
  rw [ht] at hph
  subst ht
  have hdot : ∀ l ∈ l0 :: ls, ('.' ∈ l → False) := fun l hl => (h l hl).2.2.2
  have hstr : ∀ l ∈ l0 :: ls, pstrip l = l := fun l hl => (h l hl).2.1
  have hstripT : pstrip (joinDotSpace (l0 :: ls) ++ ['.']) =
      joinDotSpace (l0 :: ls) ++ ['.'] := pstrip_noop hThd hTls
  have hrpT : removePhrases (joinDotSpace (l0 :: ls) ++ ['.']) =
      joinDotSpace (l0 :: ls) ++ ['.'] := removePhrases_noop hph hstripT
  have hctT : collapsedText (joinDotSpace (l0 :: ls) ++ ['.']) =
      joinDotSpace (l0 :: ls) ++ ['.'] := by
    unfold collapsedText
    rw [hrpT]
    exact normWS_noop hTok hThd hTls
  have hsplit : splitDot (joinDotSpace (l0 :: ls) ++ ['.']) =
      spacedParts (l0 :: ls) ++ [[]] :=
    splitDot_join (l0 :: ls) (by simp) hdot
  have hcand : candidateLines (joinDotSpace (l0 :: ls) ++ ['.']) =
      (l0 :: ls) ++ [[]] := by
    unfold candidateLines
    rw [hctT, hsplit, List.map_append, map_pstrip_spaced (l0 :: ls) hstr]
    rfl
  have hkept : keptLines (joinDotSpace (l0 :: ls) ++ ['.']) = l0 :: ls := by
    unfold keptLines
    rw [hcand, List.filter_append,
      List.filter_eq_self.2 (fun a ha => (h a ha).1),
      show List.filter keepLine [[]] = [] from by decide, List.append_nil]
  have hlj : ¬ lastChar (joinDotSpace (l0 :: ls)) = some '.' :=
    lastChar_join_ne_dot (l0 :: ls) (by simp)
      (fun l hl => ⟨keepLine_ne_nil (h l hl).1, hdot l hl⟩)
  have hrej : rejoined (joinDotSpace (l0 :: ls) ++ ['.']) =
      joinDotSpace (l0 :: ls) ++ ['.'] := by
    unfold rejoined
    simp only [hkept]
    rw [if_neg hlj]
  unfold cleanCore
  rw [hrej]
  exact normWS_noop hTok hThd hTls

/-! ## Claim theorems: the sanitizer (C4, C5, C6) -/

/-- Counterexample to C4: the sanitizer is not idempotent.  On `"x"` the
first application returns the fixed placeholder sentence, and the second
application appends a period to it. -/
theorem claim4_counterexample :
    cleanDescription (cleanDescription "x".toList) ≠ cleanDescription "x".toList ∧
    cleanDescription "x".toList = placeholderText ∧
    cleanDescription (cleanDescription "x".toList) = placeholderText ++ ['.'] :=
  ⟨by decide, by decide, by decide⟩

/-- C4 (amended): the sanitizer is idempotent on every input whose sanitized
output is not the placeholder sentence and contains none of the boilerplate
phrases.  (The placeholder itself gains a trailing period on a second pass,
and phrase removal can splice a boilerplate phrase back together, so both
exclusions are needed.) -/
theorem claim4_idempotent_amended (s : Str)
    (hph : ∀ p ∈ unwantedPhrases, occursIn p (cleanDescription s) = false)
    (hnp : cleanDescription s ≠ placeholderText) :
    cleanDescription (cleanDescription s) = cleanDescription s := by
  by_cases hs : s = []
  · subst hs
    rfl
  · have hdef : cleanDescription s =
        if (cleanCore s).length < 30 then placeholderText else cleanCore s := by
      unfold cleanDescription
      rw [if_neg hs]
    by_cases hlen : (cleanCore s).length < 30
    · exact absurd (by rw [hdef, if_pos hlen]) hnp
    · have hc : cleanDescription s = cleanCore s := by rw [hdef, if_neg hlen]
      rw [hc] at hph ⊢
      have hfix : cleanCore (cleanCore s) = cleanCore s := by
        cases hk : keptLines s with
        | nil =>
            have hcc : cleanCore s = collapsedText s := cleanCore_of_no_kept hk
            rw [hcc] at hph ⊢
            refine cleanCore_fix_of_rejected
              (collapsedOK_normWS (removePhrases s))
              (headSp_normWS (removePhrases s))
              (lastSp_normWS (removePhrases s)) hph ?_
            exact hk
        | cons l0 ls =>
            have hprops : ∀ l ∈ l0 :: ls, keepLine l = true ∧ pstrip l = l ∧
                collapsedOK l = true ∧ ('.' ∈ l → False) := by
              intro l hl
              exact keptLines_mem_props (hk ▸ hl)
            have hlj : ¬ lastChar (joinDotSpace (l0 :: ls)) = some '.' :=
              lastChar_join_ne_dot (l0 :: ls) (by simp)
                (fun l hl => ⟨keepLine_ne_nil (hprops l hl).1, (hprops l hl).2.2.2⟩)
            have hrej : rejoined s = joinDotSpace (l0 :: ls) ++ ['.'] := by
              unfold rejoined
              simp only [hk]
              rw [if_neg hlj]
            obtain ⟨hTok, hThd, hTls⟩ := join_dot_props l0 ls hprops
            have hcs : cleanCore s = joinDotSpace (l0 :: ls) ++ ['.'] := by
              unfold cleanCore
              rw [hrej]
              exact normWS_noop hTok hThd hTls
            rw [hcs] at hph ⊢
            exact cleanCore_fix_of_kept l0 ls hprops rfl hph
      have hne : cleanCore s ≠ [] := by
        intro h0
        apply hlen
        rw [h0]
        decide
      show cleanDescription (cleanCore s) = cleanCore s
      unfold cleanDescription
      rw [if_neg hne, hfix, if_neg hlen]

/-- Witness for C4 (amended): a long plain sentence is sanitized to itself
plus a trailing period, and a second application leaves it unchanged. -/
theorem claim4_witness :
    (∀ p ∈ unwantedPhrases,
      occursIn p (cleanDescription
        "Gran evento cultural en la plaza con entrada libre".toList) = false) ∧
    cleanDescription
        "Gran evento cultural en la plaza con entrada libre".toList ≠
      placeholderText ∧
    cleanDescription (cleanDescription
        "Gran evento cultural en la plaza con entrada libre".toList) =
      cleanDescription
        "Gran evento cultural en la plaza con entrada libre".toList :=
  ⟨by decide, by decide,
    claim4_idempotent_amended
      "Gran evento cultural en la plaza con entrada libre".toList
      (by decide) (by decide)⟩

/-- Counterexample to C5: on the empty input the sanitizer returns the empty
string (`if not description: return ""`), not non-empty text. -/
theorem claim5_counterexample : cleanDescription [] = [] := rfl

/-- C5 (amended): for every non-empty input the sanitizer returns non-empty
text — the placeholder sentence when the cleaned result is shorter than 30
characters, the cleaned result itself otherwise; the empty input alone
returns the empty string. -/
theorem claim5_nonempty_amended (s : Str) (hs : s ≠ []) :
    cleanDescription s ≠ [] ∧
    ((cleanCore s).length < 30 → cleanDescription s = placeholderText) ∧
    (¬ (cleanCore s).length < 30 → cleanDescription s = cleanCore s) := by
  have hdef : cleanDescription s =
      if (cleanCore s).length < 30 then placeholderText else cleanCore s := by
    unfold cleanDescription
    rw [if_neg hs]
  refine ⟨?_, fun h => by rw [hdef, if_pos h], fun h => by rw [hdef, if_neg h]⟩
  by_cases h : (cleanCore s).length < 30
  · rw [hdef, if_pos h]
    decide
  · rw [hdef, if_neg h]
    intro h0
    apply h
    rw [h0]
    decide

/-- Witness for C5 (amended) at `"x"`: non-empty output, and the short
result is replaced by the placeholder. -/
theorem claim5_witness :
    cleanDescription "x".toList ≠ [] ∧
    cleanDescription "x".toList = placeholderText :=
  ⟨(claim5_nonempty_amended "x".toList (by decide)).1,
    (claim5_nonempty_amended "x".toList (by decide)).2.1 (by decide)⟩

/-- Counterexample to C6: an input on which the sentence filter rejects
every candidate (it contains `@`) yet the sanitizer returns the phase-2
text, not the placeholder, because `if filtered_lines:` keeps the previous
value when nothing survives and that text is 30 characters or longer. -/
theorem claim6_counterexample :
    keptLines "info@x aaaaaaaaaaaaaaaaaaaaaaaaaaaaaa".toList = [] ∧
    cleanDescription "info@x aaaaaaaaaaaaaaaaaaaaaaaaaaaaaa".toList ≠
      placeholderText ∧
    cleanDescription "info@x aaaaaaaaaaaaaaaaaaaaaaaaaaaaaa".toList =
      "info@x aaaaaaaaaaaaaaaaaaaaaaaaaaaaaa".toList :=
  ⟨by decide, by decide, by decide⟩

/-- C6 (amended): when the sentence filter rejects every candidate, the
phase-2 text is kept unchanged, and the sanitizer returns the placeholder
exactly when that text is shorter than 30 characters, otherwise the text
itself. -/
theorem claim6_all_rejected_amended (s : Str) (hs : s ≠ [])
    (hk : keptLines s = []) :
    cleanCore s = collapsedText s ∧
    cleanDescription s =
      (if (collapsedText s).length < 30 then placeholderText
       else collapsedText s) := by
  have hcc := cleanCore_of_no_kept hk
  refine ⟨hcc, ?_⟩
  unfold cleanDescription
  rw [if_neg hs, hcc]

/-- Witness for C6 (amended) at the `@`-bearing input: all candidates are
rejected and the 38-character phase-2 text is returned unchanged. -/
theorem claim6_witness :
    cleanCore "info@x aaaaaaaaaaaaaaaaaaaaaaaaaaaaaa".toList =
      collapsedText "info@x aaaaaaaaaaaaaaaaaaaaaaaaaaaaaa".toList ∧
    cleanDescription "info@x aaaaaaaaaaaaaaaaaaaaaaaaaaaaaa".toList =
      (if (collapsedText "info@x aaaaaaaaaaaaaaaaaaaaaaaaaaaaaa".toList).length < 30
       then placeholderText
       else collapsedText "info@x aaaaaaaaaaaaaaaaaaaaaaaaaaaaaa".toList) :=
  claim6_all_rejected_amended "info@x aaaaaaaaaaaaaaaaaaaaaaaaaaaaaa".toList
    (by decide) (by decide)

end EventsCrawl
